import Mathlib

/-!
Verification of the review-aggregation pipeline of the ai-sdlc-suite
repository, shallowly embedded in Lean 4.

Python strings are modelled as `List Char` (`Str`); Python byte strings as
`List Nat`; Python dicts as association lists built by in-place upsert
(`dictInsert`), matching CPython insertion-order semantics.  All definitions
are direct translations of the corresponding Python functions named in their
doc comments.
-/

namespace AiSdlc

abbrev Str := List Char

/-- Python whitespace set used by `str.strip` for the ASCII range. -/
def pyIsSpace (c : Char) : Bool :=
  c = ' ' || c = Char.ofNat 9 || c = Char.ofNat 10 || c = Char.ofNat 13
    || c = Char.ofNat 11 || c = Char.ofNat 12

/-- Python `str.lower` (ASCII behaviour). -/
def pyLower (s : Str) : Str := s.map Char.toLower

/-- Python `str.upper` (ASCII behaviour). -/
def pyUpper (s : Str) : Str := s.map Char.toUpper

/-- Drop leading Python whitespace, as in `str.lstrip()`. -/
def dropLead (s : Str) : Str := s.dropWhile pyIsSpace

/-- Drop trailing Python whitespace, as in `str.rstrip()`. -/
def dropTrail (s : Str) : Str := ((s.reverse).dropWhile pyIsSpace).reverse

/-- Python `str.strip()`. -/
def pyStrip (s : Str) : Str := dropTrail (dropLead s)

/-- Python substring test `needle in hay`. -/
def pyContains (hay needle : Str) : Bool :=
  hay.tails.any (fun t => needle.isPrefixOf t)

/-- Python `str.split(sep)` for a one-character separator. -/
def splitOnChar (sep : Char) : Str → List Str
  | [] => [[]]
  | c :: cs =>
    let r := splitOnChar sep cs
    if c = sep then [] :: r
    else
      match r with
      | [] => [[c]]
      | h :: t => (c :: h) :: t

/-- Python decimal rendering of a count, used in checklist notes. -/
def natStr (n : Nat) : Str := (Nat.repr n).data

/-- Python dict assignment `d[k] = v`: replace the value in place when the
key is present, append otherwise (CPython keeps the original position). -/
def dictInsert {β : Type} : List (Str × β) → Str → β → List (Str × β)
  | [], k, v => [(k, v)]
  | e :: rest, k, v => if e.1 = k then (e.1, v) :: rest else e :: dictInsert rest k v

/-!
## Issues and the checklist

Translation of `app/ai_code_review/reviewers/base.py` (`Issue`) and of the
checklist helpers in `app/ai_code_review/router.py`
(`_normalize_severity`, `_bucket_for_issue`, `make_checklist`,
`overall_from_checklist`).
-/

/-- `Issue` dataclass from `reviewers/base.py`. -/
structure Issue where
  language : Str
  file_path : Str
  line_start : Int
  line_end : Int
  severity : Str
  category : Str
  title : Str
  detail : Str
  remediation : Str
  confidence : Str
  rule_id : Option Str := none
  deriving DecidableEq, Repr

/-- Checklist row dict `{category, item, result, notes}` built by
`make_checklist` in `router.py`. -/
structure ChecklistRow where
  category : Str
  item : Str
  result : Str
  notes : Str
  deriving DecidableEq, Repr

/-- `router._normalize_severity`: upper-case, coerce unknown values to
MEDIUM. -/
def normalize_severity (sev : Str) : Str :=
  let s := pyUpper sev
  if s = "LOW".data ∨ s = "MEDIUM".data ∨ s = "HIGH".data ∨ s = "CRITICAL".data
  then s else "MEDIUM".data

/-- `router._bucket_for_issue`: priority-ordered bucket classification. -/
def bucket_for_issue (issue : Issue) (languages : List Str) : Str :=
  let is_pp := languages.contains ("powerplatform".data)
  let rid := pyUpper (issue.rule_id.getD [])
  let cat := pyLower (pyStrip issue.category)
  let title := pyLower (pyStrip issue.title)
  let detail := pyLower (pyStrip issue.detail)
  if is_pp then
    if ("PP-".data).isPrefixOf rid ∨ ("MSAPP-".data).isPrefixOf rid then "ALM & Governance".data
    else if ("MDA-".data).isPrefixOf rid then "Model-driven UX".data
    else if cat = "security".data ∨ pyContains title ("secret".data)
        ∨ pyContains detail ("secret".data) ∨ pyContains detail ("token".data) then "Security".data
    else if cat = "reliability".data ∨ cat = "availability".data then "Reliability".data
    else if cat = "performance".data ∨ pyContains title ("delegation".data)
        ∨ pyContains detail ("delegation".data) then "Performance".data
    else if cat = "maintainability".data ∨ cat = "governance".data ∨ cat = "alm".data then
      "Maintainability".data
    else "Maintainability".data
  else
    if cat = "security".data then "Security".data
    else if cat = "reliability".data ∨ cat = "availability".data then "Reliability".data
    else if cat = "performance".data then "Performance".data
    else if cat = "maintainability".data then "Maintainability".data
    else if pyContains cat ("style".data) ∨ pyContains cat ("format".data)
        ∨ pyContains cat ("lint".data) then "Style".data
    else "Maintainability".data

/-- Number of issues falling into bucket `b`, the functional form of the
`bucket_counts` dict accumulated in `make_checklist`. -/
def bucketCount (issues : List Issue) (languages : List Str) (b : Str) : Nat :=
  (issues.filter (fun it => bucket_for_issue it languages = b)).length

/-- The `bucket_high_crit` flag of `make_checklist`: some issue in bucket `b`
has normalized severity HIGH or CRITICAL. -/
def bucketHighCrit (issues : List Issue) (languages : List Str) (b : Str) : Bool :=
  issues.any (fun it =>
    bucket_for_issue it languages = b ∧
      (normalize_severity it.severity = "HIGH".data ∨
        normalize_severity it.severity = "CRITICAL".data))

/-- Bucket definitions used by `make_checklist` when `powerplatform` was
detected. -/
def ppDefs : List (Str × Str) :=
  [("ALM & Governance".data, "Uses env vars + connection references; no hardcoded environment values".data),
   ("Security".data, "No embedded secrets/tokens; connectors and references are used correctly".data),
   ("Reliability".data, "Flows use Scopes/runAfter patterns; app formulas handle errors (IfError)".data),
   ("Performance".data, "No obvious delegation/performance smells (ForAll/LookUp patterns)".data),
   ("Maintainability".data, "Clear naming; solution metadata present; minimal bloat".data),
   ("Model-driven UX".data, "Sitemap/navigation and key metadata present".data)]

/-- Bucket definitions used by `make_checklist` otherwise. -/
def genericDefs : List (Str × Str) :=
  [("Security".data, "No hard-coded secrets or critical vulnerabilities".data),
   ("Reliability".data, "Proper error handling and stability".data),
   ("Maintainability".data, "Readable, modular, maintainable solution".data),
   ("Performance".data, "No obvious performance bottlenecks".data),
   ("Style".data, "Consistent standards and conventions".data)]

/-- One iteration of the row-building loop at the end of `make_checklist`. -/
def mkChecklistRow (issues : List Issue) (languages : List Str) (d : Str × Str) :
    ChecklistRow :=
  let c := bucketCount issues languages d.1
  let fail : Bool :=
    if d.1 = "Security".data then decide (0 < c) || bucketHighCrit issues languages d.1
    else decide (0 < c)
  { category := d.1
    item := d.2
    result := if fail then "FAIL".data else "PASS".data
    notes := if c ≠ 0 then natStr c ++ (" issue(s) found".data) else [] }

/-- `router.make_checklist`. -/
def make_checklist (issues : List Issue) (languages : List Str) : List ChecklistRow :=
  let is_pp := languages.contains ("powerplatform".data)
  let defs := if is_pp then ppDefs else genericDefs
  defs.map (mkChecklistRow issues languages)

/-- `router.overall_from_checklist`. -/
def overall_from_checklist (checklist : List ChecklistRow) : Str :=
  if checklist.all (fun r => r.result = "PASS".data) then "PASS".data else "FAIL".data

/-!
## Content filter

Translation of `app/ai_code_review/utils/content_filter.py`.
-/

/-- `EXCLUDED_DIRS` of `content_filter.py` (the set literal, spelled as
written in the source, all entries lower case). -/
def EXCLUDED_DIRS : List Str :=
  [".git".data, ".github".data, ".idea".data, ".vscode".data,
   "__pycache__".data, ".pytest_cache".data, ".mypy_cache".data, ".ruff_cache".data,
   ".venv".data, "venv".data, "env".data,
   "node_modules".data, "dist".data, "build".data, ".next".data, "coverage".data,
   ".terraform".data, ".gradle".data, ".mvn".data]

/-- `EXCLUDED_EXTS` of `content_filter.py`. -/
def EXCLUDED_EXTS : List Str :=
  [".png".data, ".jpg".data, ".jpeg".data, ".gif".data, ".bmp".data, ".webp".data, ".ico".data,
   ".pdf".data, ".docx".data, ".pptx".data, ".xlsx".data,
   ".exe".data, ".dll".data, ".so".data, ".dylib".data,
   ".zip".data, ".7z".data, ".rar".data, ".tar".data, ".gz".data,
   ".pyc".data, ".pyo".data, ".class".data,
   ".lock".data]

/-- `INCLUDED_TEXT_EXTS` of `content_filter.py`. -/
def INCLUDED_TEXT_EXTS : List Str :=
  [".py".data, ".js".data, ".jsx".data, ".ts".data, ".tsx".data, ".java".data, ".cs".data,
   ".go".data, ".rb".data, ".php".data, ".cpp".data, ".c".data, ".h".data,
   ".sql".data, ".ps1".data, ".sh".data, ".bat".data,
   ".html".data, ".htm".data, ".css".data,
   ".json".data, ".yml".data, ".yaml".data, ".toml".data, ".ini".data, ".cfg".data,
   ".xml".data, ".md".data, ".txt".data,
   ".msapp".data]

/-- `MAX_FILE_CHARS` of `content_filter.py`. -/
def MAX_FILE_CHARS : Nat := 80000

/-- The truncation marker appended by `filter_files_for_review`. -/
def TRUNC_MARKER : Str := ("\n\n[TRUNCATED: file too large]").data

/-- The backslash character. -/
def backslashChar : Char := Char.ofNat 92

/-- Python `s.replace(chr(92), chr(47))` restricted to single characters:
turn every backslash into a forward slash. -/
def replaceBackslash (s : Str) : Str :=
  s.map (fun c => if c = backslashChar then '/' else c)

/-- `content_filter._norm_path`: replace backslashes, then
`lstrip(chr(46) ++ chr(47))`, i.e. drop leading dot and slash characters. -/
def norm_path (p : Str) : Str :=
  (replaceBackslash p).dropWhile (fun c => c = '.' || c = '/')

/-- `content_filter._is_in_excluded_dir`: some nonempty path segment is
(exactly) a member of `EXCLUDED_DIRS`. -/
def is_in_excluded_dir (path_norm : Str) : Bool :=
  ((splitOnChar '/' path_norm).filter (fun x => x ≠ [])).any
    (fun part => EXCLUDED_DIRS.contains part)

/-- `os.path.basename` for forward-slash paths: the part after the last
slash. -/
def pathBasename (p : Str) : Str :=
  ((p.reverse).takeWhile (fun c => c ≠ '/')).reverse

/-- `os.path.splitext`, extension part: the suffix from the last dot of the
basename, unless every character of the basename before that dot is a dot. -/
def splitextExt (p : Str) : Str :=
  let base := pathBasename p
  let stem := (base.reverse).dropWhile (fun c => c ≠ '.')
  if stem = [] then []
  else if (stem.dropWhile (fun c => c = '.')) = [] then []
  else ('.' :: ((base.reverse).takeWhile (fun c => c ≠ '.')).reverse)

/-- Extension-less basenames that `filter_files_for_review` keeps anyway. -/
def KEPT_BASENAMES : List Str :=
  ["dockerfile".data, "makefile".data, "requirements".data, "requirements.txt".data]

/-- The body of the `filter_files_for_review` loop for a single
`(raw_path, content)` item: `none` when the entry is skipped by one of the
`continue` branches, otherwise the `(p, text)` pair stored into the result
dict. -/
def filterEntry (e : Str × Str) : Option (Str × Str) :=
  let p := norm_path e.1
  if p = [] then none
  else if p.getLast? = some '/' then none
  else if is_in_excluded_dir p then none
  else
    let ext := splitextExt (pyLower p)
    if EXCLUDED_EXTS.contains ext then none
    else if ext ≠ [] ∧ ¬ INCLUDED_TEXT_EXTS.contains ext then none
    else
      let basename := pyLower (pathBasename p)
      if ext = [] ∧ ¬ KEPT_BASENAMES.contains basename then none
      else
        let text := pyStrip e.2
        if text = [] then none
        else if MAX_FILE_CHARS < text.length then
          some (p, text.take MAX_FILE_CHARS ++ TRUNC_MARKER)
        else some (p, text)

/-- `content_filter.filter_files_for_review`: run `filterEntry` over the
items in order, assigning survivors into the result dict. -/
def filter_files_for_review (files : List (Str × Str)) : List (Str × Str) :=
  files.foldl
    (fun acc e =>
      match filterEntry e with
      | none => acc
      | some (k, v) => dictInsert acc k v)
    []

/-!
## Archive-entry normalization

Two implementations exist in the repository: `normalize_zip_entries` in
`app/ai_code_review/utils/zip_reader.py` and a separate
`normalize_zip_entries` in `app/ai_code_review/router.py` (the latter is the
one called by the `review` route).  Both are translated, for their dict
input case, over an association list of `(path, data)` pairs.
-/

/-- First path segment, `k.split(chr(47))[0]`. -/
def firstSeg (k : Str) : Str := k.takeWhile (fun c => c ≠ '/')

/-- The top-folder detection loop of `zip_reader.normalize_zip_entries`:
fold over the keys, tracking the common first segment; `none` when the loop
broke out (a key without a slash, an empty first segment, or two different
first segments). -/
def findTop : List Str → Option Str → Option Str
  | [], acc => acc
  | k :: ks, acc =>
    let k2 := replaceBackslash k
    if ¬ k2.contains '/' then none
    else
      let first := firstSeg k2
      if first = [] then none
      else
        match acc with
        | none => findTop ks (some first)
        | some t => if t = first then findTop ks (some t) else none

/-- `zip_reader.normalize_zip_entries` (dict form): strip the shared single
top-level folder when the detection loop finds one and every nonempty key
starts with it. -/
def normalize_zip_entries {β : Type} (entries : List (Str × β)) : List (Str × β) :=
  if entries.isEmpty then entries
  else
    let keys := (entries.map Prod.fst).filter (fun k => k ≠ [])
    match findTop keys none with
    | none => entries
    | some top =>
      if top = [] then entries
      else
        let prefs := top ++ ['/']
        if ¬ keys.all (fun k => prefs.isPrefixOf (replaceBackslash k)) then entries
        else
          entries.foldl
            (fun acc e =>
              let kk := replaceBackslash e.1
              let kk := if prefs.isPrefixOf kk then kk.drop prefs.length else kk
              dictInsert acc kk e.2)
            []

/-- `router.normalize_zip_entries`, dict case (Case A in the source): the
set of top-level segments is collected only from keys that contain a slash;
when that set is a singleton, its element and the following slash are
stripped from the keys carrying it, all other keys kept as they are. -/
def normalize_zip_entries_router {β : Type} (entries : List (Str × β)) : List (Str × β) :=
  if entries.isEmpty then entries
  else
    let top_levels :=
      (entries.map Prod.fst).filterMap
        (fun path => if path.contains '/' then some (firstSeg path) else none)
    match top_levels with
    | [] => entries
    | t :: rest =>
      if rest.all (fun x => x = t) then
        entries.foldl
          (fun acc e =>
            if (t ++ ['/']).isPrefixOf e.1 then
              dictInsert acc (e.1.drop (t.length + 1)) e.2
            else dictInsert acc e.1 e.2)
          []
      else entries

/-!
## Pipeline aggregation and issue dedup

The issue-collection portion of the `review` route in `router.py`
(lines building `issues` from the individual reviewers), and the
deduplication loop at the end of `CanvasMsappReviewer.review_msapp`
(`reviewers/canvas_msapp.py`).
-/

/-- The dedup key `(rule_id, file_path, line_start, title)` used by
`CanvasMsappReviewer.review_msapp`. -/
def issueKey (it : Issue) : Option Str × Str × Int × Str :=
  (it.rule_id, it.file_path, it.line_start, it.title)

/-- The dedup loop of `review_msapp`, with the accumulated `seen` set of
keys made explicit. -/
def msappDedupGo : List Issue → List (Option Str × Str × Int × Str) → List Issue
  | [], _ => []
  | it :: rest, seen =>
    if seen.contains (issueKey it) then msappDedupGo rest seen
    else it :: msappDedupGo rest (issueKey it :: seen)

/-- Deduplication of `review_msapp` output: keep the first occurrence of
each `(rule_id, file_path, line_start, title)` key. -/
def msappDedup (issues : List Issue) : List Issue := msappDedupGo issues []

/-- The issue-aggregation logic of the `review` route: run each reviewer
gated on the detected languages (and on the API key for the LLM fallback)
and concatenate the outputs in source order.  Reviewer outputs are
parameters; `msappOuts` is one output list per `.msapp` file, `llmReview`
the LLM reviewer's output for a given language tag. -/
def pipeline_issues (languages : List Str) (hasApiKey : Bool)
    (pythonOut ppOut mdaOut : List Issue) (msappOuts : List (List Issue))
    (llmReview : Str → List Issue) : List Issue :=
  (if languages.contains ("python".data) then pythonOut else [])
    ++ (if languages.contains ("powerplatform".data) then
          ppOut ++ mdaOut ++ msappOuts.flatten
        else [])
    ++ (if hasApiKey then
          ((languages.filter
              (fun lang => lang ≠ "python".data ∧ lang ≠ "powerplatform".data)).map
            llmReview).flatten
        else [])

/-!
## Msapp container reader and Canvas reviewer

Translation of `app/ai_code_review/utils/msapp_reader.py`
(`is_probably_msapp_zip`, `read_msapp_in_memory`) and of
`app/ai_code_review/reviewers/canvas_msapp.py`
(`CanvasMsappReviewer.review_msapp`).  Byte strings are `List Nat`.  The
`zipfile` library and the JSON-walking formula extractor
(`extract_canvas_formula_hits`) are modelled as explicit function
parameters: `zipExtract` stands for `ZipFile(...).infolist()` plus
`read`, `decode` for `bytes.decode(..., errors = replace)`, and
`extractHits` for `extract_canvas_formula_hits`.
-/

/-- `MsappArtifact` dataclass of `msapp_reader.py`. -/
structure MsappArtifact where
  internal_path : Str
  text : Str
  kind : Str
  deriving DecidableEq, Repr

/-- `CanvasFormulaHit` dataclass of `msapp_reader.py`. -/
structure CanvasFormulaHit where
  location : Str
  line : Int
  snippet : Str
  deriving DecidableEq, Repr

/-- One entry of `ZipFile.infolist()` together with its read bytes. -/
structure ZipEntry where
  filename : Str
  is_dir : Bool
  file_size : Nat
  data : List Nat
  deriving DecidableEq, Repr

/-- `msapp_reader.is_probably_msapp_zip`: at least four bytes and the PK
magic (bytes 80, 75) at the front. -/
def is_probably_msapp_zip (msapp_bytes : List Nat) : Bool :=
  decide (4 ≤ msapp_bytes.length ∧ msapp_bytes.take 2 = [80, 75])

/-- Default value of the `max_file_bytes` parameter of
`read_msapp_in_memory`. -/
def MAX_MSAPP_FILE_BYTES : Nat := 2000000

/-- `msapp_reader.read_msapp_in_memory` with `max_file_bytes` explicit:
empty for non-PK bytes, otherwise keep each non-directory entry below the
size cap whose lower-cased name ends in .json/.txt/.fx/.yaml, decoded to
text. -/
def read_msapp_sized (zipExtract : List Nat → List ZipEntry)
    (decode : List Nat → Str) (msapp_bytes : List Nat)
    (max_file_bytes : Nat) : List MsappArtifact :=
  if ¬ is_probably_msapp_zip msapp_bytes then []
  else
    (zipExtract msapp_bytes).filterMap (fun info =>
      if info.is_dir then none
      else if max_file_bytes < info.file_size then none
      else
        let lower := pyLower info.filename
        if ¬ ((".json".data).isSuffixOf lower ∨ (".txt".data).isSuffixOf lower
            ∨ (".fx".data).isSuffixOf lower ∨ (".yaml".data).isSuffixOf lower) then none
        else
          some { internal_path := info.filename
                 text := decode info.data
                 kind := if (".json".data).isSuffixOf lower then "json".data else "text".data })

/-- `msapp_reader.read_msapp_in_memory` at its default size cap. -/
def read_msapp_in_memory (zipExtract : List Nat → List ZipEntry)
    (decode : List Nat → Str) (msapp_bytes : List Nat) : List MsappArtifact :=
  read_msapp_sized zipExtract decode msapp_bytes MAX_MSAPP_FILE_BYTES

/-- Apostrophe character, used inside generated issue text. -/
def aposChar : Char := Char.ofNat 39

/-- `canvas_msapp.URL_RE` as a search predicate: the case-insensitive
pattern matches exactly when the lower-cased text contains one of the two
literal scheme prefixes. -/
def urlMatch (fx : Str) : Bool :=
  pyContains (pyLower fx) ("http://".data) || pyContains (pyLower fx) ("https://".data)

/-- The keyword alternatives of `canvas_msapp.SECRET_RE`, with the optional
single underscore/hyphen expanded. -/
def SECRET_KEYWORDS : List Str :=
  ["api_key".data, "api-key".data, "apikey".data,
   "client_secret".data, "client-secret".data, "clientsecret".data,
   "password".data, "token".data]

/-- `canvas_msapp.SECRET_RE` as a search predicate: some position carries a
keyword (case-insensitively), then optional whitespace, then a colon or an
equals sign. -/
def secretMatch (fx : Str) : Bool :=
  (pyLower fx).tails.any (fun t =>
    SECRET_KEYWORDS.any (fun kw =>
      kw.isPrefixOf t &&
        (match ((t.drop kw.length).dropWhile pyIsSpace).head? with
         | some c => c = ':' || c = '='
         | none => false)))

/-- `canvas_msapp.DELEGATION_SMELLS`. -/
def DELEGATION_SMELLS : List Str :=
  ["EndsWith(".data, "StartsWith(".data, (" in ".data), "CountRows(".data, "ForAll(".data]

/-- `canvas_msapp.PERF_SMELLS`. -/
def PERF_SMELLS : List (Str × Str) :=
  [("LookUp(".data, ("Repeated LookUp can be slow; cache results or use collections where appropriate.".data)),
   ("ForAll(".data, ("ForAll over large data can be slow; consider delegation/collections and minimize repeated evaluation.".data)),
   ("Concurrent(".data, ("Use carefully; check connector throttling, side effects, and data consistency.".data))]

/-- The single MEDIUM/Maintainability Issue that `review_msapp` returns when
the container yielded no artifacts. -/
def msappParseFailIssue (msapp_name : Str) : Issue :=
  { language := "powerplatform".data
    file_path := msapp_name
    line_start := 1
    line_end := 1
    severity := "MEDIUM".data
    category := "Maintainability".data
    title := "Canvas app could not be parsed in memory".data
    detail := ("This .msapp could not be read as a ZIP-like package in memory. ".data
      ++ "The app may be in a legacy/encrypted format or the file is corrupted. ".data
      ++ "Deep formula/control analysis was skipped.".data)
    remediation := ("Re-export the Canvas app from Power Apps Studio. ".data
      ++ "If available, use an export format that supports unpacked sources, ".data
      ++ "or provide unpacked app sources for deeper analysis.".data)
    confidence := "High".data
    rule_id := some ("MSAPP-PARSE".data) }

/-- The single LOW/Maintainability Issue that `review_msapp` returns when
the container parsed but no formula hits were found. -/
def msappNoFxIssue (msapp_name : Str) : Issue :=
  { language := "powerplatform".data
    file_path := msapp_name
    line_start := 1
    line_end := 1
    severity := "LOW".data
    category := "Maintainability".data
    title := "Canvas app parsed, but no formulas detected by heuristics".data
    detail := ("The .msapp was parsed successfully, but formula extraction did not find recognizable ".data
      ++ "Power Fx patterns. Review may be incomplete.".data)
    remediation := "Enable enhanced extraction rules or provide unpacked sources for a richer review.".data
    confidence := "Medium".data
    rule_id := some ("MSAPP-NO-FX".data) }

/-- The per-hit rule cascade in the main loop of `review_msapp`: the issues
appended for a single formula hit, in source order. -/
def perHitIssues (msapp_name : Str) (h : CanvasFormulaHit) : List Issue :=
  let file_path := msapp_name ++ (" :: ".data) ++ h.location
  let ls : Int := if h.line = 0 then 1 else h.line
  let fx := pyStrip h.snippet
  (if urlMatch fx then
    [{ language := "powerplatform".data, file_path := file_path, line_start := ls,
       line_end := ls, severity := "MEDIUM".data, category := "Maintainability".data,
       title := "Hardcoded URL detected in Canvas formula/property".data
       detail := "Found an absolute URL inside a Canvas formula/property; this often breaks across environments.".data
       remediation := "Use environment variables or configuration values instead of hardcoded URLs.".data
       confidence := "Medium".data, rule_id := some ("MSAPP-HARDCODED-URL".data) }]
  else [])
  ++ (if secretMatch fx then
    [{ language := "powerplatform".data, file_path := file_path, line_start := ls,
       line_end := ls, severity := "HIGH".data, category := "Security".data,
       title := "Potential secret-like text detected in Canvas content".data
       detail := "Found patterns resembling API keys/secrets/tokens. Secrets should not be embedded in Canvas apps.".data
       remediation := "Move secrets to a secure backend (Key Vault via custom connector/function). Use connection references & env vars.".data
       confidence := "Low".data, rule_id := some ("MSAPP-SECRET".data) }]
  else [])
  ++ (if pyContains fx ("Patch(".data) && ¬ pyContains fx ("IfError(".data) then
    [{ language := "powerplatform".data, file_path := file_path, line_start := ls,
       line_end := ls, severity := "MEDIUM".data, category := "Reliability".data,
       title := ("Patch() used without IfError() handling".data)
       detail := "Patch appears without IfError protection; failures may not be handled and users may not get feedback.".data
       remediation := "Wrap Patch with IfError(..., Notify(...)) and handle failure paths properly.".data
       confidence := "Medium".data, rule_id := some ("MSAPP-PATCH-IFERROR".data) }]
  else [])
  ++ (match DELEGATION_SMELLS.find? (fun smell => pyContains fx smell) with
  | some smell =>
    [{ language := "powerplatform".data, file_path := file_path, line_start := ls,
       line_end := ls, severity := "MEDIUM".data, category := "Performance".data,
       title := "Potential delegation/performance smell in Canvas formula".data
       detail := ("Formula contains ".data ++ [aposChar] ++ smell ++ [aposChar]
         ++ " which can be non-delegable or slow depending on datasource size.".data)
       remediation := "Check delegation warnings in Studio. Prefer delegable queries; pre-filter server-side; cache with collections where safe.".data
       confidence := "Low".data, rule_id := some ("MSAPP-DELEGATION".data) }]
  | none => [])
  ++ (match PERF_SMELLS.find? (fun ts => pyContains fx ts.1) with
  | some ts =>
    [{ language := "powerplatform".data, file_path := file_path, line_start := ls,
       line_end := ls, severity := "LOW".data, category := "Performance".data,
       title := ("Performance smell: ".data
         ++ ((ts.1.reverse).dropWhile (fun c => c = '(')).reverse ++ (" usage".data))
       detail := "Pattern can be expensive depending on data size and frequency of evaluation.".data
       remediation := ts.2
       confidence := "Low".data, rule_id := some ("MSAPP-PERF".data) }]
  | none => [])

/-- `CanvasMsappReviewer.review_msapp`. -/
def review_msapp (zipExtract : List Nat → List ZipEntry) (decode : List Nat → Str)
    (extractHits : List MsappArtifact → List CanvasFormulaHit)
    (msapp_name : Str) (msapp_bytes : List Nat) : List Issue :=
  let artifacts := read_msapp_in_memory zipExtract decode msapp_bytes
  if artifacts.isEmpty then [msappParseFailIssue msapp_name]
  else
    let hits := extractHits artifacts
    if hits.isEmpty then [msappNoFxIssue msapp_name]
    else
      msappDedup (hits.foldl (fun acc h => acc ++ perHitIssues msapp_name h) [])

/-!
## LLM fallback issue normalization

Translation of `_default_remediation` and `_normalize_issue_dict` from
`app/ai_code_review/reviewers/llm_fallback.py`.  The raw model output dict
is modelled as a record of optional fields, one per dict key the function
reads; the numeric fields are modelled as optional integers (so the
`int(...)` conversions of the source always succeed), string fields as
optional strings.  Python truthiness (`a or b`) is modelled by the `chain*`
helpers: an absent key and an empty string (or the integer zero) fall
through to the next alternative.
-/

/-- Raw issue dict produced by the model, one optional field per key read
by `_normalize_issue_dict`. -/
structure RawIssue where
  file_path : Option Str := none
  file : Option Str := none
  path : Option Str := none
  filename : Option Str := none
  line_start : Option Int := none
  line : Option Int := none
  start_line : Option Int := none
  line_end : Option Int := none
  end_line : Option Int := none
  remediation : Option Str := none
  recommendation : Option Str := none
  fix : Option Str := none
  resolution : Option Str := none
  category : Option Str := none
  title : Option Str := none
  issue : Option Str := none
  detail : Option Str := none
  description : Option Str := none
  severity : Option Str := none
  confidence : Option Str := none
  language : Option Str := none
  rule_id : Option Str := none
  rule : Option Str := none
  deriving Repr

/-- Python `a or b or ... or dflt` over optional strings: the first present,
nonempty alternative, else the default. -/
def chainStr (dflt : Str) : List (Option Str) → Str
  | [] => dflt
  | none :: rest => chainStr dflt rest
  | some s :: rest => if s = [] then chainStr dflt rest else s

/-- Python `a or b or ... or dflt` over optional integers: the first
present, nonzero alternative, else the default. -/
def chainInt (dflt : Int) : List (Option Int) → Int
  | [] => dflt
  | none :: rest => chainInt dflt rest
  | some v :: rest => if v = 0 then chainInt dflt rest else v

/-- Python `a or b or None` over optional strings, used for `rule_id`. -/
def chainOpt : List (Option Str) → Option Str
  | [] => none
  | none :: rest => chainOpt rest
  | some s :: rest => if s = [] then chainOpt rest else some s

/-- `llm_fallback._default_remediation`. -/
def default_remediation (category title : Str) : Str :=
  let c := pyLower category
  let t := pyLower title
  if c = "security".data then
    if pyContains t ("secret".data) ∨ pyContains t ("key".data) ∨ pyContains t ("token".data) then
      "Move secrets to environment variables/Key Vault. Rotate any exposed credentials.".data
    else if pyContains t ("subprocess".data) then
      "Validate/sanitize inputs and avoid shell=True. Prefer safe APIs and allowlists.".data
    else
      "Follow secure coding practices; validate inputs and reduce attack surface.".data
  else if c = "performance".data then
    if pyContains t ("timeout".data) then
      "Add timeouts to external calls/subprocess. Avoid unbounded waits.".data
    else
      "Profile hotspots; reduce repeated work; use caching/streaming where appropriate.".data
  else if c = "reliability".data then
    if pyContains t ("silent".data) ∨ pyContains t ("swallow".data) then
      "Do not swallow exceptions. Log the error and return a clear, user-friendly message.".data
    else
      "Improve error handling and add logging/tests for failure paths.".data
  else if c = "style".data then
    "Align with coding standards (formatting, naming, lint rules) and run auto-formatters.".data
  else
    "Refactor into smaller functions/modules, remove duplication, and add tests/documentation.".data

/-- `llm_fallback._normalize_issue_dict`. -/
def normalize_issue_dict (raw : RawIssue) : Issue :=
  let file_path0 := chainStr [] [raw.file_path, raw.file, raw.path, raw.filename]
  let line_start0 := chainInt 1 [raw.line_start, raw.line, raw.start_line]
  let line_end0 := chainInt line_start0 [raw.line_end, raw.end_line]
  let remediation0 := chainStr [] [raw.remediation, raw.recommendation, raw.fix, raw.resolution]
  let category := chainStr ("Maintainability".data) [raw.category]
  let title := chainStr ("LLM finding".data) [raw.title, raw.issue]
  let detail := chainStr title [raw.detail, raw.description]
  let severityU := pyUpper (chainStr ("MEDIUM".data) [raw.severity])
  let severity :=
    if severityU = "LOW".data ∨ severityU = "MEDIUM".data ∨ severityU = "HIGH".data
        ∨ severityU = "CRITICAL".data then severityU
    else "MEDIUM".data
  let confidence0 := chainStr ("Medium".data) [raw.confidence]
  let confidence :=
    if confidence0 = "High".data ∨ confidence0 = "Medium".data ∨ confidence0 = "Low".data then
      confidence0
    else "Medium".data
  let remediation :=
    if pyStrip remediation0 = [] then default_remediation category title else remediation0
  let file_path := if pyStrip file_path0 = [] then "UNKNOWN".data else file_path0
  let line_start := if line_start0 ≤ 0 then 1 else line_start0
  let line_end := if line_end0 < line_start then line_start else line_end0
  { language := raw.language.getD []
    file_path := file_path
    line_start := line_start
    line_end := line_end
    severity := severity
    category := category
    title := title
    detail := detail
    remediation := remediation
    confidence := confidence
    rule_id := chainOpt [raw.rule_id, raw.rule] }

/-- A concrete issue used to exercise the aggregation pipeline. -/
def sampleIssue : Issue :=
  { language := "python".data
    file_path := "app/main.py".data
    line_start := 3
    line_end := 3
    severity := "HIGH".data
    category := "Security".data
    title := "Hardcoded password".data
    detail := "A password literal was found.".data
    remediation := "Move the secret to configuration.".data
    confidence := "High".data
    rule_id := some ("S105".data) }

/-!
## General helper lemmas
-/

theorem dictInsert_mem {β : Type} {m : List (Str × β)} {k : Str} {v : β} {pr : Str × β}
    (h : pr ∈ dictInsert m k v) : pr ∈ m ∨ pr = (k, v) := by
  induction m with
  | nil => simpa [dictInsert] using h
  | cons e rest ih =>
    rw [dictInsert] at h
    by_cases he : e.1 = k
    · rw [if_pos he] at h
      rcases List.mem_cons.mp h with h1 | h1
      · right; rw [h1, he]
      · left; exact List.mem_cons_of_mem _ h1
    · rw [if_neg he] at h
      rcases List.mem_cons.mp h with h1 | h1
      · left; rw [h1]; exact List.mem_cons_self _ _
      · rcases ih h1 with h2 | h2
        · left; exact List.mem_cons_of_mem _ h2
        · right; exact h2

theorem dictInsert_of_not_mem {β : Type} {m : List (Str × β)} {k : Str} (v : β)
    (h : k ∉ m.map Prod.fst) : dictInsert m k v = m ++ [(k, v)] := by
  induction m with
  | nil => rfl
  | cons e rest ih =>
    simp only [List.map_cons, List.mem_cons] at h
    push_neg at h
    rw [dictInsert, if_neg (fun he => h.1 he.symm), ih h.2]
    rfl

theorem dictInsert_keys_subset {β : Type} {m : List (Str × β)} {k : Str} {v : β} {x : Str}
    (h : x ∈ (dictInsert m k v).map Prod.fst) : x ∈ m.map Prod.fst ∨ x = k := by
  rcases List.mem_map.mp h with ⟨pr, hpr, hx⟩
  rcases dictInsert_mem hpr with h1 | h1
  · left; exact hx ▸ List.mem_map_of_mem _ h1
  · right; rw [← hx, h1]

theorem dictInsert_keys_nodup {β : Type} {m : List (Str × β)} (k : Str) (v : β)
    (h : (m.map Prod.fst).Nodup) : ((dictInsert m k v).map Prod.fst).Nodup := by
  induction m with
  | nil => simp [dictInsert]
  | cons e rest ih =>
    simp only [List.map_cons, List.nodup_cons] at h
    by_cases he : e.1 = k
    · rw [dictInsert, if_pos he]
      simp only [List.map_cons, List.nodup_cons]
      exact ⟨h.1, h.2⟩
    · rw [dictInsert, if_neg he]
      simp only [List.map_cons, List.nodup_cons]
      refine ⟨fun hmem => ?_, ih h.2⟩
      rcases dictInsert_keys_subset hmem with h1 | h1
      · exact h.1 h1
      · exact he h1

/-- Folding plain dict insertion over a list of pairs. -/
def dictFold {β : Type} (acc : List (Str × β)) (l : List (Str × β)) : List (Str × β) :=
  l.foldl (fun acc e => dictInsert acc e.1 e.2) acc

theorem dictFold_keys_nodup {β : Type} (l : List (Str × β)) :
    ∀ acc : List (Str × β), (acc.map Prod.fst).Nodup → ((dictFold acc l).map Prod.fst).Nodup := by
  induction l with
  | nil => intro acc h; exact h
  | cons e rest ih =>
    intro acc h
    exact ih _ (dictInsert_keys_nodup e.1 e.2 h)

theorem dictFold_mem {β : Type} {l : List (Str × β)} :
    ∀ {acc : List (Str × β)} {pr : Str × β}, pr ∈ dictFold acc l → pr ∈ acc ∨ pr ∈ l := by
  induction l with
  | nil => intro acc pr h; exact Or.inl h
  | cons e rest ih =>
    intro acc pr h
    rcases ih h with h1 | h1
    · rcases dictInsert_mem h1 with h2 | h2
      · exact Or.inl h2
      · right
        rw [h2]
        exact List.mem_cons_self _ _
    · right; exact List.mem_cons_of_mem _ h1

theorem dictFold_eq_append {β : Type} (l : List (Str × β)) :
    ∀ acc : List (Str × β), (l.map Prod.fst).Nodup →
      (∀ k ∈ l.map Prod.fst, k ∉ acc.map Prod.fst) → dictFold acc l = acc ++ l := by
  induction l with
  | nil => intro acc _ _; simp [dictFold]
  | cons e rest ih =>
    intro acc hnd hdisj
    simp only [List.map_cons, List.nodup_cons] at hnd
    have he : e.1 ∉ acc.map Prod.fst :=
      hdisj e.1 (List.mem_map_of_mem Prod.fst (List.mem_cons_self e rest))
    have hstep : dictInsert acc e.1 e.2 = acc ++ [(e.1, e.2)] := dictInsert_of_not_mem e.2 he
    have hdisj2 : ∀ k ∈ rest.map Prod.fst, k ∉ (acc ++ [(e.1, e.2)]).map Prod.fst := by
      intro k hk
      simp only [List.map_append, List.mem_append, List.map_cons, List.map_nil,
        List.mem_singleton]
      push_neg
      exact ⟨hdisj k (List.mem_cons_of_mem _ hk), fun hke => hnd.1 (hke ▸ hk)⟩
    have : dictFold acc (e :: rest) = dictFold (acc ++ [(e.1, e.2)]) rest := by
      simp [dictFold, hstep]
    rw [this, ih _ hnd.2 hdisj2]
    simp

theorem head?_dropWhile_false {p : Char → Bool} :
    ∀ {l : Str} {c : Char}, (l.dropWhile p).head? = some c → p c = false := by
  intro l
  induction l with
  | nil => intro c h; simp [List.dropWhile] at h
  | cons a as ih =>
    intro c h
    rw [List.dropWhile_cons] at h
    by_cases hpa : p a = true
    · rw [if_pos hpa] at h; exact ih h
    · rw [if_neg hpa] at h
      simp only [List.head?_cons, Option.some.injEq] at h
      rw [← h]
      exact Bool.eq_false_iff.mpr hpa

theorem dropWhile_eq_self_of_head {p : Char → Bool} {l : Str}
    (h : ∀ c, l.head? = some c → p c = false) : l.dropWhile p = l := by
  cases l with
  | nil => rfl
  | cons a as =>
    rw [List.dropWhile_cons, if_neg]
    rw [h a rfl]
    simp

theorem prefix_head? {l m : Str} (hpre : l <+: m) (hne : l ≠ []) : m.head? = l.head? := by
  rcases hpre with ⟨r, hr⟩
  cases l with
  | nil => exact absurd rfl hne
  | cons a as => rw [← hr]; rfl

theorem dropTrail_prefix_self (l : Str) : dropTrail l <+: l := by
  have h1 : (l.reverse.dropWhile pyIsSpace).reverse <+: l.reverse.reverse :=
    List.reverse_prefix.mpr (List.dropWhile_suffix pyIsSpace)
  simpa using h1

theorem dropLead_head {l : Str} {c : Char} (h : (dropLead l).head? = some c) :
    pyIsSpace c = false := head?_dropWhile_false h

theorem pyStrip_head {l : Str} {c : Char} (h : (pyStrip l).head? = some c) :
    pyIsSpace c = false := by
  unfold pyStrip at h
  rcases hcase : dropTrail (dropLead l) with _ | ⟨a, as⟩
  · rw [hcase] at h; simp at h
  · have hne : dropTrail (dropLead l) ≠ [] := by rw [hcase]; simp
    have := prefix_head? (dropTrail_prefix_self (dropLead l)) hne
    exact dropLead_head (this ▸ h)

theorem dropTrail_eq_self_of_getLast {l : Str}
    (h : ∀ c, l.reverse.head? = some c → pyIsSpace c = false) : dropTrail l = l := by
  unfold dropTrail
  rw [dropWhile_eq_self_of_head h, List.reverse_reverse]

theorem pyStrip_getLast {l : Str} {c : Char} (h : (pyStrip l).reverse.head? = some c) :
    pyIsSpace c = false := by
  unfold pyStrip dropTrail at h
  rw [List.reverse_reverse] at h
  exact head?_dropWhile_false h

theorem pyStrip_idem (l : Str) : pyStrip (pyStrip l) = pyStrip l := by
  have h1 : dropLead (pyStrip l) = pyStrip l :=
    dropWhile_eq_self_of_head (fun c hc => pyStrip_head hc)
  unfold pyStrip
  rw [show dropLead (dropTrail (dropLead l)) = dropLead (pyStrip l) from rfl, h1]
  exact dropTrail_eq_self_of_getLast (fun c hc => pyStrip_getLast hc)

/-!
## Claim C2: overall verdict
-/

/-- Claim C2: `overall_from_checklist` returns PASS exactly when every
checklist row's result is PASS, and setting any single row's result to FAIL
makes the overall verdict FAIL. -/
theorem overall_pass_iff_all_pass (cl : List ChecklistRow) :
    (overall_from_checklist cl = "PASS".data ↔ ∀ r ∈ cl, r.result = "PASS".data)
    ∧ ∀ i (h : i < cl.length),
        overall_from_checklist
          (cl.set i { cl.get ⟨i, h⟩ with result := "FAIL".data }) = "FAIL".data := by
  constructor
  · unfold overall_from_checklist
    by_cases hall : cl.all (fun r => r.result = "PASS".data) = true
    · rw [if_pos hall]
      simp only [List.all_eq_true, decide_eq_true_eq] at hall
      exact ⟨fun _ => hall, fun _ => rfl⟩
    · rw [if_neg hall]
      constructor
      · intro h; exact absurd h (by decide)
      · intro h
        exact absurd (List.all_eq_true.mpr (fun r hr => decide_eq_true (h r hr))) hall
  · intro i h
    set row : ChecklistRow := { cl.get ⟨i, h⟩ with result := "FAIL".data } with hrow
    have hlen : i < (cl.set i row).length := by simpa using h
    have hget : (cl.set i row).get ⟨i, hlen⟩ = row := by
      simp [List.get_eq_getElem, List.getElem_set_self]
    have hmem : row ∈ cl.set i row := List.mem_iff_get.mpr ⟨⟨i, hlen⟩, hget⟩
    unfold overall_from_checklist
    rw [if_neg]
    intro hall
    have := List.all_eq_true.mp hall row hmem
    rw [hrow] at this
    simp at this

/-- Witness for C2 at a concrete one-row checklist. -/
theorem overall_pass_iff_all_pass_witness :
    overall_from_checklist
      (([({ category := "Security".data, item := [], result := "PASS".data,
            notes := [] } : ChecklistRow)]).set 0
        { ([({ category := "Security".data, item := [], result := "PASS".data,
               notes := [] } : ChecklistRow)]).get ⟨0, by decide⟩ with
          result := "FAIL".data }) = "FAIL".data :=
  (overall_pass_iff_all_pass _).2 0 (by decide)

/-!
## Claim C9: fixed checklist row set
-/

/-- Claim C9: `make_checklist` always returns the fixed, complete row set:
six rows in fixed order when `powerplatform` is among the detected
languages, five rows in fixed order otherwise, independent of the issue
list. -/
theorem make_checklist_categories (issues : List Issue) (languages : List Str) :
    (make_checklist issues languages).map ChecklistRow.category =
      if ("powerplatform".data) ∈ languages then
        ["ALM & Governance".data, "Security".data, "Reliability".data,
         "Performance".data, "Maintainability".data, "Model-driven UX".data]
      else
        ["Security".data, "Reliability".data, "Maintainability".data,
         "Performance".data, "Style".data] := by
  by_cases hpp : ("powerplatform".data) ∈ languages
  · rw [if_pos hpp]
    unfold make_checklist
    rw [show languages.contains ("powerplatform".data) = true from List.elem_iff.mpr hpp]
    rfl
  · rw [if_neg hpp]
    unfold make_checklist
    rw [show languages.contains ("powerplatform".data) = false from
      Bool.eq_false_iff.mpr (fun hc => hpp (List.elem_iff.mp hc))]
    rfl

/-!
## Claim C1: checklist scoring
-/

theorem mkChecklistRow_category (issues : List Issue) (langs : List Str) (d : Str × Str) :
    (mkChecklistRow issues langs d).category = d.1 := rfl

theorem mkChecklistRow_result_iff (issues : List Issue) (langs : List Str) (d : Str × Str) :
    (mkChecklistRow issues langs d).result = "FAIL".data ↔
      (0 < bucketCount issues langs d.1 ∨
        (d.1 = "Security".data ∧ bucketHighCrit issues langs d.1 = true)) := by
  have hres : (mkChecklistRow issues langs d).result =
      (if (if d.1 = "Security".data
            then decide (0 < bucketCount issues langs d.1) || bucketHighCrit issues langs d.1
            else decide (0 < bucketCount issues langs d.1))
        then "FAIL".data else "PASS".data) := rfl
  rw [hres]
  by_cases hsec : d.1 = "Security".data
  · rw [if_pos hsec]
    by_cases hb : (decide (0 < bucketCount issues langs d.1)
        || bucketHighCrit issues langs d.1) = true
    · rw [if_pos hb]
      simp only [Bool.or_eq_true, decide_eq_true_eq] at hb
      constructor
      · intro _
        rcases hb with h | h
        · exact Or.inl h
        · exact Or.inr ⟨hsec, h⟩
      · intro _; rfl
    · rw [if_neg hb]
      simp only [Bool.or_eq_true, decide_eq_true_eq] at hb
      push_neg at hb
      constructor
      · intro hFP; exact absurd hFP (by decide)
      · intro hcase
        rcases hcase with h | ⟨_, h⟩
        · exact absurd h (Nat.not_lt.mpr hb.1)
        · exact absurd h hb.2
  · rw [if_neg hsec]
    by_cases hb : decide (0 < bucketCount issues langs d.1) = true
    · rw [if_pos hb]
      rw [decide_eq_true_eq] at hb
      exact ⟨fun _ => Or.inl hb, fun _ => rfl⟩
    · rw [if_neg hb]
      rw [decide_eq_true_eq] at hb
      constructor
      · intro hFP; exact absurd hFP (by decide)
      · intro hcase
        rcases hcase with h | ⟨h, _⟩
        · exact absurd h hb
        · exact absurd h hsec

theorem bucketHighCrit_iff (issues : List Issue) (langs : List Str) (b : Str) :
    bucketHighCrit issues langs b = true ↔
      ∃ it ∈ issues, bucket_for_issue it langs = b ∧
        (normalize_severity it.severity = "HIGH".data ∨
          normalize_severity it.severity = "CRITICAL".data) := by
  unfold bucketHighCrit
  rw [List.any_eq_true]
  simp only [decide_eq_true_eq]

/-- Claim C1: in `make_checklist`, every non-Security row is FAIL exactly
when its bucket's issue count is positive; the Security row is FAIL exactly
when its count is positive or some issue bucketed to Security has normalized
severity HIGH or CRITICAL (the severity condition being a separate
disjunct). -/
theorem make_checklist_fail_condition (issues : List Issue) (languages : List Str)
    (row : ChecklistRow) (hrow : row ∈ make_checklist issues languages) :
    (row.category ≠ "Security".data →
      (row.result = "FAIL".data ↔ 0 < bucketCount issues languages row.category))
    ∧ (row.category = "Security".data →
      (row.result = "FAIL".data ↔
        (0 < bucketCount issues languages ("Security".data) ∨
          ∃ it ∈ issues, bucket_for_issue it languages = "Security".data ∧
            (normalize_severity it.severity = "HIGH".data ∨
              normalize_severity it.severity = "CRITICAL".data)))) := by
  have hrow2 : row ∈ (if languages.contains ("powerplatform".data) then ppDefs
      else genericDefs).map (mkChecklistRow issues languages) := hrow
  rcases List.mem_map.mp hrow2 with ⟨d, _, hd⟩
  have hcat : row.category = d.1 := by rw [← hd]; rfl
  constructor
  · intro hns
    have hns2 : d.1 ≠ "Security".data := hcat ▸ hns
    rw [← hd, mkChecklistRow_result_iff, mkChecklistRow_category]
    constructor
    · intro hcase
      rcases hcase with h | ⟨h, _⟩
      · exact h
      · exact absurd h hns2
    · exact fun h => Or.inl h
  · intro hs
    rw [← hd, mkChecklistRow_result_iff]
    rw [hcat] at hs
    rw [hs]
    constructor
    · intro hcase
      rcases hcase with h | ⟨_, h⟩
      · exact Or.inl h
      · exact Or.inr ((bucketHighCrit_iff issues languages _).mp h)
    · intro hcase
      rcases hcase with h | h
      · exact Or.inl h
      · exact Or.inr ⟨rfl, (bucketHighCrit_iff issues languages _).mpr h⟩

/-- Witness for C1: the Security row of the empty checklist run. -/
theorem make_checklist_fail_condition_witness :
    ((make_checklist [] []).get ⟨0, by decide⟩).result = "FAIL".data ↔
      (0 < bucketCount [] [] ("Security".data) ∨
        ∃ it ∈ ([] : List Issue), bucket_for_issue it [] = "Security".data ∧
          (normalize_severity it.severity = "HIGH".data ∨
            normalize_severity it.severity = "CRITICAL".data)) :=
  (make_checklist_fail_condition [] [] _
    (List.get_mem (make_checklist [] []) 0 (by decide))).2 (by decide)

/-!
## Claim C5: container reader and reviewer terminal cases
-/

/-- Claim C5: bytes not beginning with the PK magic (the empty byte string
included) make `read_msapp_in_memory` return the empty list; an artifact-less
container makes `review_msapp` return exactly one MEDIUM/Maintainability
parse-failure Issue; a container that parses but yields no formula hits
makes it return exactly one LOW/Maintainability Issue. -/
theorem msapp_terminal_cases (zipExtract : List Nat → List ZipEntry)
    (decode : List Nat → Str) (extractHits : List MsappArtifact → List CanvasFormulaHit)
    (msapp_name : Str) (msapp_bytes : List Nat) :
    (([80, 75] : List Nat).isPrefixOf msapp_bytes = false →
      read_msapp_in_memory zipExtract decode msapp_bytes = [])
    ∧ (read_msapp_in_memory zipExtract decode msapp_bytes = [] →
      review_msapp zipExtract decode extractHits msapp_name msapp_bytes =
          [msappParseFailIssue msapp_name] ∧
        (msappParseFailIssue msapp_name).severity = "MEDIUM".data ∧
        (msappParseFailIssue msapp_name).category = "Maintainability".data)
    ∧ (read_msapp_in_memory zipExtract decode msapp_bytes ≠ [] →
      extractHits (read_msapp_in_memory zipExtract decode msapp_bytes) = [] →
      review_msapp zipExtract decode extractHits msapp_name msapp_bytes =
          [msappNoFxIssue msapp_name] ∧
        (msappNoFxIssue msapp_name).severity = "LOW".data ∧
        (msappNoFxIssue msapp_name).category = "Maintainability".data) := by
  refine ⟨?_, ?_, ?_⟩
  · intro hpre
    unfold read_msapp_in_memory read_msapp_sized
    rw [if_pos]
    intro hprob
    unfold is_probably_msapp_zip at hprob
    rw [decide_eq_true_eq] at hprob
    have htake : msapp_bytes.take 2 <+: msapp_bytes := List.take_prefix 2 msapp_bytes
    rw [hprob.2] at htake
    have htrue : ([80, 75] : List Nat).isPrefixOf msapp_bytes = true :=
      List.isPrefixOf_iff_prefix.mpr htake
    rw [hpre] at htrue
    exact Bool.false_ne_true htrue
  · intro hread
    refine ⟨?_, rfl, rfl⟩
    unfold review_msapp
    rw [hread]
    rfl
  · intro hread hhits
    refine ⟨?_, rfl, rfl⟩
    unfold review_msapp
    rcases List.exists_cons_of_ne_nil hread with ⟨a, as, hcons⟩
    rw [hcons]
    have hhits2 : extractHits (a :: as) = [] := hcons ▸ hhits
    simp [hhits2]

/-- Witness for C5: trivial container oracles and empty bytes. -/
theorem msapp_terminal_cases_witness :
    review_msapp (fun _ => []) (fun _ => []) (fun _ => []) ("app.msapp".data) [] =
      [msappParseFailIssue ("app.msapp".data)] :=
  ((msapp_terminal_cases (fun _ => []) (fun _ => []) (fun _ => [])
    ("app.msapp".data) []).2.1 (by decide)).1

/-!
## Claim C4: issue deduplication
-/

theorem msappDedupGo_notin :
    ∀ (l : List Issue) (seen : List (Option Str × Str × Int × Str)) {it : Issue},
      it ∈ msappDedupGo l seen → issueKey it ∉ seen := by
  intro l
  induction l with
  | nil => intro seen it h; simp [msappDedupGo] at h
  | cons x xs ih =>
    intro seen it h
    rw [msappDedupGo] at h
    by_cases hc : seen.contains (issueKey x) = true
    · rw [if_pos hc] at h; exact ih seen h
    · rw [if_neg hc] at h
      rcases List.mem_cons.mp h with h1 | h1
      · rw [h1]
        exact fun hmem => hc (List.elem_iff.mpr hmem)
      · have h2 := ih _ h1
        exact fun hmem => h2 (List.mem_cons_of_mem _ hmem)

theorem msappDedupGo_pairwise :
    ∀ (l : List Issue) (seen : List (Option Str × Str × Int × Str)),
      (msappDedupGo l seen).Pairwise (fun a b => issueKey a ≠ issueKey b) := by
  intro l
  induction l with
  | nil => intro seen; simp [msappDedupGo]
  | cons x xs ih =>
    intro seen
    rw [msappDedupGo]
    by_cases hc : seen.contains (issueKey x) = true
    · rw [if_pos hc]; exact ih _
    · rw [if_neg hc]
      refine List.Pairwise.cons ?_ (ih _)
      intro b hb
      have h2 := msappDedupGo_notin xs (issueKey x :: seen) hb
      intro he
      exact h2 (by rw [← he]; exact List.mem_cons_self _ _)

theorem msappDedupGo_sublist :
    ∀ (l : List Issue) (seen : List (Option Str × Str × Int × Str)),
      (msappDedupGo l seen).Sublist l := by
  intro l
  induction l with
  | nil => intro seen; simp [msappDedupGo]
  | cons x xs ih =>
    intro seen
    rw [msappDedupGo]
    by_cases hc : seen.contains (issueKey x) = true
    · rw [if_pos hc]; exact (ih seen).trans (List.sublist_cons_self x xs)
    · rw [if_neg hc]; exact List.Sublist.cons₂ x (ih _)

theorem msappDedupGo_cover :
    ∀ (l : List Issue) (seen : List (Option Str × Str × Int × Str)) {it : Issue},
      it ∈ l → issueKey it ∉ seen →
      ∃ it2 ∈ msappDedupGo l seen, issueKey it2 = issueKey it := by
  intro l
  induction l with
  | nil => intro seen it h _; simp at h
  | cons x xs ih =>
    intro seen it hmem hnot
    rw [msappDedupGo]
    by_cases hc : seen.contains (issueKey x) = true
    · rw [if_pos hc]
      rcases List.mem_cons.mp hmem with h1 | h1
      · rw [h1] at hnot
        exact absurd (List.elem_iff.mp hc) hnot
      · exact ih _ h1 hnot
    · rw [if_neg hc]
      rcases List.mem_cons.mp hmem with h1 | h1
      · exact ⟨x, List.mem_cons_self _ _, by rw [h1]⟩
      · by_cases hk : issueKey it = issueKey x
        · exact ⟨x, List.mem_cons_self _ _, hk.symm⟩
        · have hnot2 : issueKey it ∉ issueKey x :: seen := by
            intro hm
            rcases List.mem_cons.mp hm with h2 | h2
            · exact hk h2
            · exact hnot h2
          rcases ih _ h1 hnot2 with ⟨it2, h2, h3⟩
          exact ⟨it2, List.mem_cons_of_mem _ h2, h3⟩

theorem msappDedupGo_congr :
    ∀ (l : List Issue) (s1 s2 : List (Option Str × Str × Int × Str)),
      (∀ k, k ∈ s1 ↔ k ∈ s2) → msappDedupGo l s1 = msappDedupGo l s2 := by
  intro l
  induction l with
  | nil => intro s1 s2 _; rfl
  | cons x xs ih =>
    intro s1 s2 hequiv
    rw [msappDedupGo, msappDedupGo]
    by_cases h1 : s1.contains (issueKey x) = true
    · have h2 : s2.contains (issueKey x) = true :=
        List.elem_iff.mpr ((hequiv _).mp (List.elem_iff.mp h1))
      rw [if_pos h1, if_pos h2]
      exact ih _ _ hequiv
    · have h2 : ¬ s2.contains (issueKey x) = true :=
        fun hc => h1 (List.elem_iff.mpr ((hequiv _).mpr (List.elem_iff.mp hc)))
      rw [if_neg h1, if_neg h2]
      rw [ih (issueKey x :: s1) (issueKey x :: s2)
        (by intro k; simp only [List.mem_cons]; rw [hequiv k])]

theorem msappDedupGo_filter :
    ∀ (l : List Issue) (k : Option Str × Str × Int × Str)
      (seen : List (Option Str × Str × Int × Str)),
      msappDedupGo l (k :: seen) =
        msappDedupGo (l.filter (fun y => issueKey y ≠ k)) seen := by
  intro l
  induction l with
  | nil => intro k seen; rfl
  | cons x xs ih =>
    intro k seen
    by_cases hxk : issueKey x = k
    · rw [msappDedupGo,
        if_pos (List.elem_iff.mpr (by rw [hxk]; exact List.mem_cons_self _ _))]
      rw [List.filter_cons, if_neg (by simp [hxk])]
      exact ih k seen
    · by_cases hxs : issueKey x ∈ seen
      · rw [msappDedupGo, if_pos (List.elem_iff.mpr (List.mem_cons_of_mem _ hxs))]
        rw [List.filter_cons, if_pos (by simp [hxk])]
        rw [msappDedupGo, if_pos (List.elem_iff.mpr hxs)]
        exact ih k seen
      · have hnotin : issueKey x ∉ k :: seen := by
          intro hm
          rcases List.mem_cons.mp hm with h2 | h2
          · exact hxk h2
          · exact hxs h2
        rw [msappDedupGo, if_neg (fun hcc => hnotin (List.elem_iff.mp hcc))]
        rw [List.filter_cons, if_pos (by simp [hxk])]
        rw [msappDedupGo, if_neg (fun hcc => hxs (List.elem_iff.mp hcc))]
        congr 1
        rw [msappDedupGo_congr xs (issueKey x :: k :: seen) (k :: issueKey x :: seen)
          (by intro k2; simp only [List.mem_cons]; tauto)]
        exact ih k (issueKey x :: seen)

/-- Claim C4 (amended): the dedup at the end of `review_msapp` keeps the
first occurrence of each `(rule_id, file_path, line_start, title)` key: the
output has pairwise distinct keys, is a sublist of the input, covers every
input key, and satisfies the first-occurrence recursion. -/
theorem msapp_dedup_spec (issues : List Issue) :
    (msappDedup issues).Pairwise (fun a b => issueKey a ≠ issueKey b)
    ∧ (msappDedup issues).Sublist issues
    ∧ (∀ it ∈ issues, ∃ it2 ∈ msappDedup issues, issueKey it2 = issueKey it)
    ∧ (∀ x xs, issues = x :: xs →
        msappDedup issues =
          x :: msappDedup (xs.filter (fun y => issueKey y ≠ issueKey x))) := by
  refine ⟨msappDedupGo_pairwise issues [], msappDedupGo_sublist issues [], ?_, ?_⟩
  · intro it hmem
    exact msappDedupGo_cover issues [] hmem (by simp)
  · intro x xs hcons
    subst hcons
    unfold msappDedup
    rw [msappDedupGo, if_neg (by simp)]
    rw [msappDedupGo_filter xs (issueKey x) []]

/-- Witness for the amended C4 at a concrete duplicated issue list. -/
theorem msapp_dedup_spec_witness :
    ∃ it2 ∈ msappDedup [sampleIssue, sampleIssue], issueKey it2 = issueKey sampleIssue :=
  (msapp_dedup_spec [sampleIssue, sampleIssue]).2.2.1 sampleIssue
    (List.mem_cons_self _ _)

/-- Counterexample for C4 as stated: the aggregated pipeline issue list
keeps both copies of an issue emitted identically by two different
reviewers; no cross-reviewer dedup happens before bucketing. -/
theorem pipeline_no_dedup_counterexample :
    pipeline_issues ["python".data, "powerplatform".data] false
        [sampleIssue] [sampleIssue] [] [] (fun _ => []) = [sampleIssue, sampleIssue]
    ∧ ((pipeline_issues ["python".data, "powerplatform".data] false
        [sampleIssue] [sampleIssue] [] [] (fun _ => [])).filter
          (fun it => issueKey it = issueKey sampleIssue)).length = 2 := by
  constructor
  · rfl
  · rfl

/-!
## Claim C6: defensive normalization of raw LLM issues
-/

theorem default_remediation_ne_nil (c t : Str) : default_remediation c t ≠ [] := by
  unfold default_remediation
  dsimp only
  split_ifs <;> decide

theorem chainInt_of_nonpos :
    ∀ (opts : List (Option Int)), (∀ o ∈ opts, ∀ v, o = some v → v ≤ 0) →
      (chainInt 1 opts ≤ 0 ∨ chainInt 1 opts = 1) := by
  intro opts
  induction opts with
  | nil => intro _; right; rfl
  | cons o rest ih =>
    intro h
    cases o with
    | none =>
      rw [chainInt]
      exact ih (fun o2 ho2 => h o2 (List.mem_cons_of_mem _ ho2))
    | some v =>
      rw [chainInt]
      by_cases hv : v = 0
      · rw [if_pos hv]
        exact ih (fun o2 ho2 => h o2 (List.mem_cons_of_mem _ ho2))
      · rw [if_neg hv]
        exact Or.inl (h (some v) (List.mem_cons_self _ _) v rfl)

/-- Claim C6: `_normalize_issue_dict` substitutes a non-empty default
remediation, replaces a missing or blank file path with UNKNOWN, clamps a
missing or non-positive line start to 1, raises `line_end` to `line_start`
when it is below it, and coerces out-of-range severity and confidence to
MEDIUM and Medium. -/
theorem normalize_issue_dict_spec (raw : RawIssue) :
    (normalize_issue_dict raw).remediation ≠ []
    ∧ (pyStrip (chainStr [] [raw.remediation, raw.recommendation, raw.fix, raw.resolution]) = [] →
        (normalize_issue_dict raw).remediation =
          default_remediation (normalize_issue_dict raw).category
            (normalize_issue_dict raw).title)
    ∧ (pyStrip (chainStr [] [raw.file_path, raw.file, raw.path, raw.filename]) = [] →
        (normalize_issue_dict raw).file_path = "UNKNOWN".data)
    ∧ 1 ≤ (normalize_issue_dict raw).line_start
    ∧ ((∀ o ∈ [raw.line_start, raw.line, raw.start_line], ∀ v, o = some v → v ≤ 0) →
        (normalize_issue_dict raw).line_start = 1)
    ∧ (normalize_issue_dict raw).line_start ≤ (normalize_issue_dict raw).line_end
    ∧ (chainInt (chainInt 1 [raw.line_start, raw.line, raw.start_line])
          [raw.line_end, raw.end_line] < (normalize_issue_dict raw).line_start →
        (normalize_issue_dict raw).line_end = (normalize_issue_dict raw).line_start)
    ∧ ((normalize_issue_dict raw).severity = "LOW".data ∨
        (normalize_issue_dict raw).severity = "MEDIUM".data ∨
        (normalize_issue_dict raw).severity = "HIGH".data ∨
        (normalize_issue_dict raw).severity = "CRITICAL".data)
    ∧ (¬ (pyUpper (chainStr ("MEDIUM".data) [raw.severity]) = "LOW".data ∨
          pyUpper (chainStr ("MEDIUM".data) [raw.severity]) = "MEDIUM".data ∨
          pyUpper (chainStr ("MEDIUM".data) [raw.severity]) = "HIGH".data ∨
          pyUpper (chainStr ("MEDIUM".data) [raw.severity]) = "CRITICAL".data) →
        (normalize_issue_dict raw).severity = "MEDIUM".data)
    ∧ ((normalize_issue_dict raw).confidence = "High".data ∨
        (normalize_issue_dict raw).confidence = "Medium".data ∨
        (normalize_issue_dict raw).confidence = "Low".data)
    ∧ (¬ (chainStr ("Medium".data) [raw.confidence] = "High".data ∨
          chainStr ("Medium".data) [raw.confidence] = "Medium".data ∨
          chainStr ("Medium".data) [raw.confidence] = "Low".data) →
        (normalize_issue_dict raw).confidence = "Medium".data) := by
  have hrem : (normalize_issue_dict raw).remediation =
      (if pyStrip (chainStr [] [raw.remediation, raw.recommendation, raw.fix,
            raw.resolution]) = []
        then default_remediation (chainStr ("Maintainability".data) [raw.category])
          (chainStr ("LLM finding".data) [raw.title, raw.issue])
        else chainStr [] [raw.remediation, raw.recommendation, raw.fix, raw.resolution]) :=
    rfl
  have hcat : (normalize_issue_dict raw).category =
      chainStr ("Maintainability".data) [raw.category] := rfl
  have httl : (normalize_issue_dict raw).title =
      chainStr ("LLM finding".data) [raw.title, raw.issue] := rfl
  have hfp : (normalize_issue_dict raw).file_path =
      (if pyStrip (chainStr [] [raw.file_path, raw.file, raw.path, raw.filename]) = []
        then "UNKNOWN".data
        else chainStr [] [raw.file_path, raw.file, raw.path, raw.filename]) := rfl
  have hls : (normalize_issue_dict raw).line_start =
      (if chainInt 1 [raw.line_start, raw.line, raw.start_line] ≤ 0 then 1
        else chainInt 1 [raw.line_start, raw.line, raw.start_line]) := rfl
  have hle : (normalize_issue_dict raw).line_end =
      (if chainInt (chainInt 1 [raw.line_start, raw.line, raw.start_line])
            [raw.line_end, raw.end_line] < (normalize_issue_dict raw).line_start
        then (normalize_issue_dict raw).line_start
        else chainInt (chainInt 1 [raw.line_start, raw.line, raw.start_line])
          [raw.line_end, raw.end_line]) := rfl
  have hsev : (normalize_issue_dict raw).severity =
      (if pyUpper (chainStr ("MEDIUM".data) [raw.severity]) = "LOW".data ∨
          pyUpper (chainStr ("MEDIUM".data) [raw.severity]) = "MEDIUM".data ∨
          pyUpper (chainStr ("MEDIUM".data) [raw.severity]) = "HIGH".data ∨
          pyUpper (chainStr ("MEDIUM".data) [raw.severity]) = "CRITICAL".data
        then pyUpper (chainStr ("MEDIUM".data) [raw.severity])
        else "MEDIUM".data) := rfl
  have hcon : (normalize_issue_dict raw).confidence =
      (if chainStr ("Medium".data) [raw.confidence] = "High".data ∨
          chainStr ("Medium".data) [raw.confidence] = "Medium".data ∨
          chainStr ("Medium".data) [raw.confidence] = "Low".data
        then chainStr ("Medium".data) [raw.confidence]
        else "Medium".data) := rfl
  refine ⟨?_, ?_, ?_, ?_, ?_, ?_, ?_, ?_, ?_, ?_, ?_⟩
  · rw [hrem]
    by_cases h : pyStrip (chainStr [] [raw.remediation, raw.recommendation, raw.fix,
        raw.resolution]) = []
    · rw [if_pos h]; exact default_remediation_ne_nil _ _
    · rw [if_neg h]
      intro hnil
      rw [hnil] at h
      exact h rfl
  · intro h
    rw [hrem, if_pos h, hcat, httl]
  · intro h
    rw [hfp, if_pos h]
  · rw [hls]
    by_cases h : chainInt 1 [raw.line_start, raw.line, raw.start_line] ≤ 0
    · rw [if_pos h]
    · rw [if_neg h]; omega
  · intro h
    rcases chainInt_of_nonpos _ h with h2 | h2
    · rw [hls, if_pos h2]
    · rw [hls, h2]; rfl
  · rw [hle]
    by_cases h : chainInt (chainInt 1 [raw.line_start, raw.line, raw.start_line])
        [raw.line_end, raw.end_line] < (normalize_issue_dict raw).line_start
    · rw [if_pos h]
    · rw [if_neg h]; omega
  · intro h
    rw [hle, if_pos h]
  · rw [hsev]
    by_cases h : pyUpper (chainStr ("MEDIUM".data) [raw.severity]) = "LOW".data ∨
        pyUpper (chainStr ("MEDIUM".data) [raw.severity]) = "MEDIUM".data ∨
        pyUpper (chainStr ("MEDIUM".data) [raw.severity]) = "HIGH".data ∨
        pyUpper (chainStr ("MEDIUM".data) [raw.severity]) = "CRITICAL".data
    · rw [if_pos h]; exact h
    · rw [if_neg h]; exact Or.inr (Or.inl rfl)
  · intro h
    rw [hsev, if_neg h]
  · rw [hcon]
    by_cases h : chainStr ("Medium".data) [raw.confidence] = "High".data ∨
        chainStr ("Medium".data) [raw.confidence] = "Medium".data ∨
        chainStr ("Medium".data) [raw.confidence] = "Low".data
    · rw [if_pos h]; exact h
    · rw [if_neg h]; exact Or.inr (Or.inl rfl)
  · intro h
    rw [hcon, if_neg h]

/-- Witness for C6 at the all-absent raw dict. -/
theorem normalize_issue_dict_spec_witness :
    (normalize_issue_dict {}).line_start = 1 ∧
      (normalize_issue_dict {}).file_path = "UNKNOWN".data :=
  ⟨(normalize_issue_dict_spec {}).2.2.2.2.1 (by simp),
    (normalize_issue_dict_spec {}).2.2.1 (by decide)⟩

/-!
## Content-filter lemmas, claims C8 and C10
-/

theorem any_eq_false_iff {α : Type} (l : List α) (q : α → Bool) :
    l.any q = false ↔ ∀ x ∈ l, q x = false := by
  constructor
  · intro h x hx
    by_contra hq
    rw [← Bool.not_eq_true] at h
    exact h (List.any_eq_true.mpr ⟨x, hx, eq_true_of_ne_false (fun hf => hq hf)⟩)
  · intro h
    rw [← Bool.not_eq_true]
    intro hany
    rcases List.any_eq_true.mp hany with ⟨x, hx, hqx⟩
    rw [h x hx] at hqx
    exact Bool.false_ne_true hqx

theorem filter_files_eq_dictFold (files : List (Str × Str)) :
    filter_files_for_review files = dictFold [] (files.filterMap filterEntry) := by
  suffices hgen : ∀ (l : List (Str × Str)) (acc : List (Str × Str)),
      l.foldl
        (fun acc e =>
          match filterEntry e with
          | none => acc
          | some (k, v) => dictInsert acc k v)
        acc = dictFold acc (l.filterMap filterEntry) by
    exact hgen files []
  intro l
  induction l with
  | nil => intro acc; rfl
  | cons e rest ih =>
    intro acc
    rw [List.foldl_cons, List.filterMap_cons]
    cases hfe : filterEntry e with
    | none => exact ih acc
    | some kv =>
      rcases kv with ⟨k, v⟩
      rw [ih (dictInsert acc k v)]
      rfl

theorem mem_filter_files {files : List (Str × Str)} {pr : Str × Str}
    (h : pr ∈ filter_files_for_review files) :
    ∃ e ∈ files, filterEntry e = some pr := by
  rw [filter_files_eq_dictFold] at h
  rcases dictFold_mem h with h1 | h1
  · simp at h1
  · exact List.mem_filterMap.mp h1

theorem filterEntry_eq_some {e : Str × Str} {p t : Str}
    (h : filterEntry e = some (p, t)) :
    p = norm_path e.1
    ∧ p ≠ []
    ∧ ¬ p.getLast? = some '/'
    ∧ is_in_excluded_dir p = false
    ∧ ¬ EXCLUDED_EXTS.contains (splitextExt (pyLower p)) = true
    ∧ ¬ (splitextExt (pyLower p) ≠ [] ∧
        ¬ INCLUDED_TEXT_EXTS.contains (splitextExt (pyLower p)) = true)
    ∧ ¬ (splitextExt (pyLower p) = [] ∧
        ¬ KEPT_BASENAMES.contains (pyLower (pathBasename p)) = true)
    ∧ pyStrip e.2 ≠ []
    ∧ (((pyStrip e.2).length ≤ MAX_FILE_CHARS ∧ t = pyStrip e.2) ∨
        (MAX_FILE_CHARS < (pyStrip e.2).length ∧
          t = (pyStrip e.2).take MAX_FILE_CHARS ++ TRUNC_MARKER)) := by
  unfold filterEntry at h
  dsimp only at h
  split_ifs at h with h1 h2 h3 h4 h5 h6 h7 h8
  · have hpt : norm_path e.1 = p ∧ (pyStrip e.2).take MAX_FILE_CHARS ++ TRUNC_MARKER = t := by
      have := Option.some.inj h
      exact ⟨congrArg Prod.fst this, congrArg Prod.snd this⟩
    rcases hpt with ⟨hp, ht⟩
    subst hp
    refine ⟨rfl, h1, h2, Bool.eq_false_iff.mpr h3, h4, h5, h6, h7, Or.inr ⟨h8, ht.symm⟩⟩
  · have hpt : norm_path e.1 = p ∧ pyStrip e.2 = t := by
      have := Option.some.inj h
      exact ⟨congrArg Prod.fst this, congrArg Prod.snd this⟩
    rcases hpt with ⟨hp, ht⟩
    subst hp
    refine ⟨rfl, h1, h2, Bool.eq_false_iff.mpr h3, h4, h5, h6, h7,
      Or.inl ⟨Nat.le_of_not_lt h8, ht.symm⟩⟩

theorem filterEntry_none_of_blank {rp c : Str} (h : pyStrip c = []) :
    filterEntry (rp, c) = none := by
  unfold filterEntry
  dsimp only
  split_ifs <;> rfl

/-- Claim C8 (amended): `filter_files_for_review` retains no entry whose
normalized path contains a denylisted directory name as a path segment; the
segment match is exact (case-sensitive), at any depth. -/
theorem filter_excluded_dirs (files : List (Str × Str)) (p t : Str)
    (h : (p, t) ∈ filter_files_for_review files) :
    is_in_excluded_dir p = false
    ∧ ∀ part ∈ splitOnChar '/' p, part ≠ [] → part ∉ EXCLUDED_DIRS := by
  rcases mem_filter_files h with ⟨e, _, hsome⟩
  have spec := filterEntry_eq_some hsome
  have hexc : is_in_excluded_dir p = false := spec.2.2.2.1
  refine ⟨hexc, ?_⟩
  intro part hpart hne
  unfold is_in_excluded_dir at hexc
  rw [any_eq_false_iff] at hexc
  have hmem : part ∈ (splitOnChar '/' p).filter (fun x => x ≠ []) :=
    List.mem_filter.mpr ⟨hpart, by simp [hne]⟩
  have hfalse2 := hexc part hmem
  intro hpart2
  have htrue : EXCLUDED_DIRS.contains part = true := List.elem_iff.mpr hpart2
  rw [hfalse2] at htrue
  exact Bool.false_ne_true htrue

/-- Counterexample for C8 as stated: the segment match is case-sensitive,
so an upper-cased NODE_MODULES directory survives the filter while the
lower-cased spelling is dropped. -/
theorem filter_excluded_dirs_counterexample :
    filter_files_for_review [(("NODE_MODULES/a.py").data, ("x").data)] =
      [(("NODE_MODULES/a.py").data, ("x").data)]
    ∧ filter_files_for_review [(("node_modules/a.py").data, ("x").data)] = [] := by
  exact ⟨rfl, rfl⟩

/-- Witness for the amended C8 at a concrete retained file. -/
theorem filter_excluded_dirs_witness :
    is_in_excluded_dir ("src/a.py".data) = false :=
  (filter_excluded_dirs [(("src/a.py").data, ("x").data)] ("src/a.py".data) ("x".data)
    (by decide)).1

/-- Claim C10: every value retained by `filter_files_for_review` is
non-empty and equals the stripped content of some input entry, up to
truncation; whitespace-only entries are dropped. -/
theorem filter_values_nonempty (files : List (Str × Str)) (p t : Str)
    (h : (p, t) ∈ filter_files_for_review files) :
    t ≠ []
    ∧ (∃ rp c, (rp, c) ∈ files ∧ norm_path rp = p ∧ pyStrip c ≠ [] ∧
        (t = pyStrip c ∨ t = (pyStrip c).take MAX_FILE_CHARS ++ TRUNC_MARKER))
    ∧ (∀ rp c, (rp, c) ∈ files → pyStrip c = [] → filterEntry (rp, c) = none) := by
  rcases mem_filter_files h with ⟨e, he, hsome⟩
  have spec := filterEntry_eq_some hsome
  refine ⟨?_, ⟨e.1, e.2, by simpa using he, spec.1.symm, spec.2.2.2.2.2.2.2.1, ?_⟩, ?_⟩
  · rcases spec.2.2.2.2.2.2.2.2 with ⟨_, ht⟩ | ⟨_, ht⟩
    · rw [ht]; exact spec.2.2.2.2.2.2.2.1
    · rw [ht]
      intro hnil
      have := (List.append_eq_nil.mp hnil).2
      exact absurd this (by decide)
  · rcases spec.2.2.2.2.2.2.2.2 with ⟨_, ht⟩ | ⟨_, ht⟩
    · exact Or.inl ht
    · exact Or.inr ht
  · intro rp c _ hblank
    exact filterEntry_none_of_blank hblank

/-- Witness for C10 at a concrete filtered mapping. -/
theorem filter_values_nonempty_witness :
    ∃ rp c, (rp, c) ∈ [(("a.py").data, ("  hi  ").data)] ∧
      norm_path rp = "a.py".data ∧ pyStrip c ≠ [] ∧
      (("hi").data = pyStrip c ∨
        ("hi").data = (pyStrip c).take MAX_FILE_CHARS ++ TRUNC_MARKER) :=
  (filter_values_nonempty [(("a.py").data, ("  hi  ").data)] ("a.py".data) ("hi".data)
    (by decide)).2.1

/-!
## Claim C7: filter idempotency
-/

theorem replaceBackslash_eq_self {x : Str} (h : ∀ c ∈ x, c ≠ backslashChar) :
    replaceBackslash x = x := by
  unfold replaceBackslash
  conv_rhs => rw [← List.map_id x]
  apply List.map_congr_left
  intro a ha
  rw [if_neg (h a ha)]
  rfl

theorem mem_replaceBackslash_ne (s : Str) : ∀ c ∈ replaceBackslash s, c ≠ backslashChar := by
  intro c hc
  rcases List.mem_map.mp hc with ⟨a, _, ha⟩
  by_cases hab : a = backslashChar
  · rw [if_pos hab] at ha
    rw [← ha]
    decide
  · rw [if_neg hab] at ha
    rw [← ha]
    exact hab

theorem norm_path_idem (p : Str) : norm_path (norm_path p) = norm_path p := by
  unfold norm_path
  have h1 : replaceBackslash
      ((replaceBackslash p).dropWhile (fun c => c = '.' || c = '/')) =
      (replaceBackslash p).dropWhile (fun c => c = '.' || c = '/') := by
    apply replaceBackslash_eq_self
    intro c hc
    exact mem_replaceBackslash_ne p c ((List.dropWhile_sublist _).subset hc)
  rw [h1]
  exact dropWhile_eq_self_of_head (fun c hc => head?_dropWhile_false hc)

theorem head?_append_left {α : Type} {l₁ : List α} (l₂ : List α) (h : l₁ ≠ []) :
    (l₁ ++ l₂).head? = l₁.head? := by
  cases l₁ with
  | nil => exact absurd rfl h
  | cons a as => rfl

theorem pyStrip_eq_self {l : Str}
    (hhead : ∀ c, l.head? = some c → pyIsSpace c = false)
    (hlast : ∀ c, l.reverse.head? = some c → pyIsSpace c = false) :
    pyStrip l = l := by
  unfold pyStrip dropLead
  rw [dropWhile_eq_self_of_head hhead]
  exact dropTrail_eq_self_of_getLast hlast

theorem pyStrip_trunc (s : Str) (hs : pyStrip s ≠ []) :
    pyStrip ((pyStrip s).take MAX_FILE_CHARS ++ TRUNC_MARKER) =
      (pyStrip s).take MAX_FILE_CHARS ++ TRUNC_MARKER := by
  have hhead : ∀ c,
      ((pyStrip s).take MAX_FILE_CHARS ++ TRUNC_MARKER).head? = some c →
        pyIsSpace c = false := by
    intro c hc
    cases hstr : pyStrip s with
    | nil => exact absurd hstr hs
    | cons a as =>
      rw [hstr] at hc
      rw [show MAX_FILE_CHARS = 79999 + 1 from rfl] at hc
      rw [List.take_succ_cons] at hc
      rw [head?_append_left _ (by simp)] at hc
      simp only [List.head?_cons, Option.some.injEq] at hc
      rw [← hc]
      exact pyStrip_head (by rw [hstr]; rfl)
  have hlast : ∀ c,
      ((pyStrip s).take MAX_FILE_CHARS ++ TRUNC_MARKER).reverse.head? = some c →
        pyIsSpace c = false := by
    intro c hc
    rw [List.reverse_append] at hc
    rw [head?_append_left _ (by decide)] at hc
    have : (TRUNC_MARKER.reverse).head? = some (']') := by decide
    rw [this] at hc
    rw [← Option.some.inj hc]
    decide
  exact pyStrip_eq_self hhead hlast

theorem trunc_take {s : Str} (h : MAX_FILE_CHARS < s.length) :
    (s.take MAX_FILE_CHARS ++ TRUNC_MARKER).take MAX_FILE_CHARS =
      s.take MAX_FILE_CHARS := by
  have hlen : (s.take MAX_FILE_CHARS).length = MAX_FILE_CHARS := by
    rw [List.length_take]
    exact Nat.min_eq_left (Nat.le_of_lt h)
  calc (s.take MAX_FILE_CHARS ++ TRUNC_MARKER).take MAX_FILE_CHARS
      = (s.take MAX_FILE_CHARS ++ TRUNC_MARKER).take (s.take MAX_FILE_CHARS).length := by
        rw [hlen]
    _ = s.take MAX_FILE_CHARS := List.take_left _ _

theorem filterEntry_idem {e : Str × Str} {p t : Str}
    (h : filterEntry e = some (p, t)) : filterEntry (p, t) = some (p, t) := by
  obtain ⟨hp, hne, hlast, hexc, hext1, hext2, hbase, hstrip, hcase⟩ :=
    filterEntry_eq_some h
  have hnorm : norm_path p = p := by rw [hp]; exact norm_path_idem e.1
  unfold filterEntry
  dsimp only
  rw [hnorm]
  rw [if_neg hne, if_neg hlast, if_neg (by rw [hexc]; exact Bool.false_ne_true),
    if_neg hext1, if_neg hext2, if_neg hbase]
  rcases hcase with ⟨hlen, ht⟩ | ⟨hlen, ht⟩
  · have hstript : pyStrip t = t := by rw [ht]; exact pyStrip_idem _
    have htne : ¬ pyStrip t = [] := by
      rw [hstript, ht]; exact hstrip
    rw [if_neg htne, hstript]
    rw [if_neg (by rw [ht]; exact Nat.not_lt.mpr hlen)]
  · have hstript : pyStrip t = t := by rw [ht]; exact pyStrip_trunc e.2 hstrip
    have htne : ¬ pyStrip t = [] := by
      rw [hstript, ht]
      intro hnil
      exact absurd (List.append_eq_nil.mp hnil).2 (by decide)
    rw [if_neg htne, hstript]
    have hlent : MAX_FILE_CHARS < t.length := by
      rw [ht, List.length_append, List.length_take, Nat.min_eq_left (Nat.le_of_lt hlen)]
      exact Nat.lt_add_of_pos_right (by decide)
    rw [if_pos hlent]
    rw [ht, trunc_take hlen]

theorem filterMap_eq_self_of_some {α : Type} (f : α → Option α) :
    ∀ (l : List α), (∀ e ∈ l, f e = some e) → l.filterMap f = l := by
  intro l
  induction l with
  | nil => intro _; rfl
  | cons x xs ih =>
    intro h
    rw [List.filterMap_cons, h x (List.mem_cons_self _ _)]
    rw [ih (fun e he => h e (List.mem_cons_of_mem _ he))]

/-- Claim C7: `filter_files_for_review` is idempotent — applying it to its
own output (truncated-and-marked oversized values included) returns that
output unchanged. -/
theorem filter_files_idempotent (files : List (Str × Str)) :
    filter_files_for_review (filter_files_for_review files) =
      filter_files_for_review files := by
  have hself : ∀ e ∈ filter_files_for_review files, filterEntry e = some e := by
    intro e he
    rcases e with ⟨p, t⟩
    rcases mem_filter_files he with ⟨e0, _, h0⟩
    exact filterEntry_idem h0
  have hnodup : ((filter_files_for_review files).map Prod.fst).Nodup := by
    rw [filter_files_eq_dictFold]
    exact dictFold_keys_nodup _ [] (by simp)
  rw [filter_files_eq_dictFold (filter_files_for_review files)]
  rw [filterMap_eq_self_of_some filterEntry _ hself]
  rw [dictFold_eq_append _ [] hnodup (by intro k _; simp)]
  simp

/-!
## Claim C3: archive-entry normalization
-/

theorem firstSeg_append {t : Str} (r : Str) (ht : ('/') ∉ t) :
    firstSeg (t ++ '/' :: r) = t := by
  induction t with
  | nil => rfl
  | cons c ts ih =>
    have hc : c ≠ '/' := fun hc => ht (hc ▸ List.mem_cons_self _ _)
    have hts : ('/') ∉ ts := fun hm => ht (List.mem_cons_of_mem _ hm)
    unfold firstSeg at ih ⊢
    rw [List.cons_append, List.takeWhile_cons, if_pos (by simp [hc]), ih hts]

theorem findTop_acc_some :
    ∀ (ks : List Str) (x t : Str), findTop ks (some x) = some t → x = t := by
  intro ks
  induction ks with
  | nil => intro x t h; exact Option.some.inj h
  | cons k0 rest ih =>
    intro x t h
    rw [findTop] at h
    dsimp only at h
    split_ifs at h
    exact ih x t h

theorem findTop_all_of_some :
    ∀ (ks : List Str) (acc : Option Str) (t : Str), findTop ks acc = some t →
      ∀ k ∈ ks, (replaceBackslash k).contains '/' = true ∧
        firstSeg (replaceBackslash k) = t := by
  intro ks
  induction ks with
  | nil => intro acc t _ k hk; simp at hk
  | cons k0 rest ih =>
    intro acc t h k hk
    cases acc with
    | none =>
      rw [findTop] at h
      dsimp only at h
      split_ifs at h with h1 h2
      have hcont : (replaceBackslash k0).contains '/' = true := h1
      have hfs : firstSeg (replaceBackslash k0) = t := findTop_acc_some rest _ t h
      rcases List.mem_cons.mp hk with hke | hke
      · exact hke ▸ ⟨hcont, hfs⟩
      · exact ih _ t h k hke
    | some a =>
      rw [findTop] at h
      dsimp only at h
      split_ifs at h with h1 h2 h3
      have hcont : (replaceBackslash k0).contains '/' = true := h1
      have hat : a = t := findTop_acc_some rest a t h
      rcases List.mem_cons.mp hk with hke | hke
      · exact hke ▸ ⟨hcont, by rw [← h3, hat]⟩
      · exact ih _ t h k hke

theorem findTop_const :
    ∀ (ks : List Str) (t : Str), t ≠ [] → ('/') ∉ t →
      (∀ k ∈ ks, replaceBackslash k = k ∧ ∃ r, k = t ++ '/' :: r) →
      findTop ks (some t) = some t := by
  intro ks
  induction ks with
  | nil => intro t _ _ _; rfl
  | cons k0 rest ih =>
    intro t ht hslash hall
    rcases hall k0 (List.mem_cons_self _ _) with ⟨hrep, r0, hk0⟩
    have hcont : (replaceBackslash k0).contains '/' = true := by
      rw [hrep, hk0]
      exact List.elem_iff.mpr (List.mem_append_right _ (List.mem_cons_self _ _))
    have hfs : firstSeg (replaceBackslash k0) = t := by
      rw [hrep, hk0]; exact firstSeg_append r0 hslash
    rw [findTop]
    dsimp only
    rw [if_neg (not_not_intro hcont), if_neg (fun hmm => ht (by rw [← hfs]; exact hmm)),
      if_pos hfs.symm]
    exact ih t ht hslash (fun k hk => hall k (List.mem_cons_of_mem _ hk))

theorem foldl_congr_mem {α γ : Type} :
    ∀ (l : List α) (acc : γ) (f g : γ → α → γ),
      (∀ b a, a ∈ l → f b a = g b a) → l.foldl f acc = l.foldl g acc := by
  intro l
  induction l with
  | nil => intro acc f g _; rfl
  | cons x xs ih =>
    intro acc f g h
    rw [List.foldl_cons, List.foldl_cons, h acc x (List.mem_cons_self _ _)]
    exact ih _ f g (fun b a ha => h b a (List.mem_cons_of_mem _ ha))

theorem foldl_dictInsert_map {α : Type} {β : Type} :
    ∀ (l : List α) (acc : List (Str × β)) (g : α → Str × β),
      l.foldl (fun acc e => dictInsert acc (g e).1 (g e).2) acc = dictFold acc (l.map g) := by
  intro l
  induction l with
  | nil => intro acc g; rfl
  | cons x xs ih =>
    intro acc g
    rw [List.foldl_cons, List.map_cons]
    exact ih _ g

theorem drop_shared_top {t : Str} (r : Str) :
    (t ++ '/' :: r).drop (t.length + 1) = r := by
  have h1 : t ++ '/' :: r = (t ++ ['/']) ++ r := by simp
  have h2 : (t ++ ['/']).length = t.length + 1 := by simp
  rw [h1, ← h2]
  exact List.drop_left _ _

theorem map_fst_drop_nodup {β : Type} (entries : List (Str × β)) (t : Str)
    (hnd : (entries.map Prod.fst).Nodup)
    (hall : ∀ k ∈ entries.map Prod.fst, backslashChar ∉ k ∧ ∃ r, k = t ++ '/' :: r) :
    ((entries.map (fun e => (e.1.drop (t.length + 1), e.2))).map Prod.fst).Nodup := by
  have hcomp : (entries.map (fun e => (e.1.drop (t.length + 1), e.2))).map Prod.fst =
      (entries.map Prod.fst).map (fun k => k.drop (t.length + 1)) := by
    rw [List.map_map, List.map_map]
    rfl
  rw [hcomp]
  apply List.Nodup.map_on ?_ hnd
  intro x hx y hy hxy
  rcases (hall x hx).2 with ⟨rx, hrx⟩
  rcases (hall y hy).2 with ⟨ry, hry⟩
  rw [hrx, drop_shared_top rx] at hxy
  rw [hry, drop_shared_top ry] at hxy
  rw [hrx, hry, hxy]

theorem normalize_strip {β : Type} (entries : List (Str × β)) (t : Str)
    (ht : t ≠ []) (hslash : ('/') ∉ t)
    (hnd : (entries.map Prod.fst).Nodup)
    (hall : ∀ k ∈ entries.map Prod.fst, backslashChar ∉ k ∧ ∃ r, k = t ++ '/' :: r) :
    normalize_zip_entries entries =
      entries.map (fun e => (e.1.drop (t.length + 1), e.2)) := by
  cases entries with
  | nil => rfl
  | cons e0 es =>
    have hrep : ∀ k ∈ (e0 :: es).map Prod.fst, replaceBackslash k = k := fun k hk =>
      replaceBackslash_eq_self (fun c hc hceq => (hall k hk).1 (hceq ▸ hc))
    have hkeys : ((e0 :: es).map Prod.fst).filter (fun k => k ≠ []) =
        (e0 :: es).map Prod.fst := by
      apply List.filter_eq_self.mpr
      intro k hk
      rcases (hall k hk).2 with ⟨r, hr⟩
      simp [hr]
    have hfind : findTop (((e0 :: es).map Prod.fst).filter (fun k => k ≠ [])) none =
        some t := by
      rw [hkeys, List.map_cons]
      rcases hall e0.1 (List.mem_map_of_mem Prod.fst (List.mem_cons_self e0 es))
        with ⟨_, r0, hk0⟩
      have hrep0 : replaceBackslash e0.1 = e0.1 :=
        hrep e0.1 (List.mem_map_of_mem Prod.fst (List.mem_cons_self e0 es))
      have hcont0 : (replaceBackslash e0.1).contains '/' = true := by
        rw [hrep0, hk0]
        exact List.elem_iff.mpr (List.mem_append_right _ (List.mem_cons_self _ _))
      have hfs0 : firstSeg (replaceBackslash e0.1) = t := by
        rw [hrep0, hk0]; exact firstSeg_append r0 hslash
      rw [findTop]
      dsimp only
      rw [if_neg (not_not_intro hcont0),
        if_neg (fun hmm => ht (by rw [← hfs0]; exact hmm)), hfs0]
      exact findTop_const (es.map Prod.fst) t ht hslash
        (fun k hk => ⟨hrep k (List.mem_cons_of_mem _ hk),
          (hall k (List.mem_cons_of_mem _ hk)).2⟩)
    have hallpre : (((e0 :: es).map Prod.fst).filter (fun k => k ≠ [])).all
        (fun k => (t ++ ['/']).isPrefixOf (replaceBackslash k)) = true := by
      rw [hkeys]
      apply List.all_eq_true.mpr
      intro k hk
      rcases (hall k hk).2 with ⟨r, hr⟩
      rw [hrep k hk, hr]
      exact List.isPrefixOf_iff_prefix.mpr ⟨r, by simp⟩
    unfold normalize_zip_entries
    rw [show (e0 :: es).isEmpty = false from rfl]
    rw [if_neg Bool.false_ne_true]
    dsimp only
    rw [hfind]
    dsimp only
    rw [if_neg ht, if_neg (not_not_intro hallpre)]
    rw [foldl_congr_mem (e0 :: es) []
      _ (fun acc e => dictInsert acc (e.1.drop (t.length + 1)) e.2) ?_]
    · rw [foldl_dictInsert_map (e0 :: es) [] (fun e => (e.1.drop (t.length + 1), e.2))]
      rw [dictFold_eq_append _ [] (map_fst_drop_nodup (e0 :: es) t hnd hall)
        (by intro k _; simp)]
      simp
    · intro acc e he
      have hke : e.1 ∈ (e0 :: es).map Prod.fst := List.mem_map_of_mem Prod.fst he
      rcases (hall e.1 hke).2 with ⟨r, hr⟩
      have hpre : (t ++ ['/']).isPrefixOf e.1 = true := by
        rw [hr]
        exact List.isPrefixOf_iff_prefix.mpr ⟨r, by simp⟩
      dsimp only
      rw [hrep e.1 hke, if_pos hpre]
      rw [show (t ++ ['/']).length = t.length + 1 by simp]

theorem filterMap_tops_eq_map_const (t : Str) :
    ∀ (ks : List Str), (∀ k ∈ ks, k.contains '/' = true ∧ firstSeg k = t) →
      ks.filterMap (fun path => if path.contains '/' then some (firstSeg path) else none) =
        ks.map (fun _ => t) := by
  intro ks
  induction ks with
  | nil => intro _; rfl
  | cons k0 rest ih =>
    intro h
    rw [List.filterMap_cons, List.map_cons]
    rcases h k0 (List.mem_cons_self _ _) with ⟨hc, hf⟩
    rw [if_pos hc, hf]
    rw [ih (fun k hk => h k (List.mem_cons_of_mem _ hk))]

theorem normalize_router_strip {β : Type} (entries : List (Str × β)) (t : Str)
    (ht : t ≠ []) (hslash : ('/') ∉ t)
    (hnd : (entries.map Prod.fst).Nodup)
    (hall : ∀ k ∈ entries.map Prod.fst, backslashChar ∉ k ∧ ∃ r, k = t ++ '/' :: r) :
    normalize_zip_entries_router entries =
      entries.map (fun e => (e.1.drop (t.length + 1), e.2)) := by
  cases entries with
  | nil => rfl
  | cons e0 es =>
    have htops : ∀ k ∈ (e0 :: es).map Prod.fst,
        k.contains '/' = true ∧ firstSeg k = t := by
      intro k hk
      rcases (hall k hk).2 with ⟨r, hr⟩
      constructor
      · rw [hr]
        exact List.elem_iff.mpr (List.mem_append_right _ (List.mem_cons_self _ _))
      · rw [hr]; exact firstSeg_append r hslash
    unfold normalize_zip_entries_router
    rw [show (e0 :: es).isEmpty = false from rfl]
    rw [if_neg Bool.false_ne_true]
    dsimp only
    rw [filterMap_tops_eq_map_const t _ htops, List.map_cons, List.map_cons]
    dsimp only
    rw [if_pos (List.all_eq_true.mpr ?_)]
    · rw [foldl_congr_mem (e0 :: es) []
        _ (fun acc e => dictInsert acc (e.1.drop (t.length + 1)) e.2) ?_]
      · rw [foldl_dictInsert_map (e0 :: es) [] (fun e => (e.1.drop (t.length + 1), e.2))]
        rw [dictFold_eq_append _ [] (map_fst_drop_nodup (e0 :: es) t hnd hall)
          (by intro k _; simp)]
        simp
      · intro acc e he
        have hke : e.1 ∈ (e0 :: es).map Prod.fst := List.mem_map_of_mem Prod.fst he
        rcases (hall e.1 hke).2 with ⟨r, hr⟩
        have hpre : (t ++ ['/']).isPrefixOf e.1 = true := by
          rw [hr]
          exact List.isPrefixOf_iff_prefix.mpr ⟨r, by simp⟩
        dsimp only
        rw [if_pos hpre]
    · intro x hx
      rcases List.mem_map.mp hx with ⟨_, _, hxa⟩
      simp [← hxa]

theorem normalize_noop_of_findTop_none {β : Type} (e0 : Str × β) (es : List (Str × β))
    (hfind : findTop (((e0 :: es).map Prod.fst).filter (fun k => k ≠ [])) none = none) :
    normalize_zip_entries (e0 :: es) = e0 :: es := by
  unfold normalize_zip_entries
  rw [show (e0 :: es).isEmpty = false from rfl]
  rw [if_neg Bool.false_ne_true]
  dsimp only
  rw [hfind]

theorem normalize_noop_of_slashless {β : Type} (entries : List (Str × β)) (k : Str)
    (hk : k ∈ entries.map Prod.fst) (hne : k ≠ []) (hbs : backslashChar ∉ k)
    (hns : ('/') ∉ k) : normalize_zip_entries entries = entries := by
  cases entries with
  | nil => rfl
  | cons e0 es =>
    apply normalize_noop_of_findTop_none
    cases hf : findTop (((e0 :: es).map Prod.fst).filter (fun k => k ≠ [])) none with
    | none => rfl
    | some t =>
      exfalso
      have hmem : k ∈ ((e0 :: es).map Prod.fst).filter (fun k => k ≠ []) :=
        List.mem_filter.mpr ⟨hk, by simp [hne]⟩
      have hc := (findTop_all_of_some _ none t hf k hmem).1
      rw [replaceBackslash_eq_self (fun c hc2 hceq => hbs (hceq ▸ hc2))] at hc
      exact hns (List.elem_iff.mp hc)

theorem normalize_noop_of_diff_tops {β : Type} (entries : List (Str × β)) (k1 k2 : Str)
    (hk1 : k1 ∈ entries.map Prod.fst) (hk2 : k2 ∈ entries.map Prod.fst)
    (hne1 : k1 ≠ []) (hne2 : k2 ≠ [])
    (hbs1 : backslashChar ∉ k1) (hbs2 : backslashChar ∉ k2)
    (hdiff : firstSeg k1 ≠ firstSeg k2) : normalize_zip_entries entries = entries := by
  cases entries with
  | nil => rfl
  | cons e0 es =>
    apply normalize_noop_of_findTop_none
    cases hf : findTop (((e0 :: es).map Prod.fst).filter (fun k => k ≠ [])) none with
    | none => rfl
    | some t =>
      exfalso
      have hmem1 : k1 ∈ ((e0 :: es).map Prod.fst).filter (fun k => k ≠ []) :=
        List.mem_filter.mpr ⟨hk1, by simp [hne1]⟩
      have hmem2 : k2 ∈ ((e0 :: es).map Prod.fst).filter (fun k => k ≠ []) :=
        List.mem_filter.mpr ⟨hk2, by simp [hne2]⟩
      have hf1 := (findTop_all_of_some _ none t hf k1 hmem1).2
      have hf2 := (findTop_all_of_some _ none t hf k2 hmem2).2
      rw [replaceBackslash_eq_self (fun c hc2 hceq => hbs1 (hceq ▸ hc2))] at hf1
      rw [replaceBackslash_eq_self (fun c hc2 hceq => hbs2 (hceq ▸ hc2))] at hf2
      exact hdiff (hf1.trans hf2.symm)

/-- Claim C3 (amended): when every entry path (backslash-free, as ZIP paths
are) starts with the same single nonempty top segment followed by a slash,
both normalization implementations strip that segment and the slash from
every path; the `zip_reader` implementation returns the mapping unchanged
when some nonempty path has no separator or when two paths have different
top segments (the router implementation instead computes the shared segment
from the slash-containing paths only); neither implementation is idempotent
in general, a second application strips a further shared layer. -/
theorem normalize_zip_spec {β : Type} (entries : List (Str × β)) :
    (∀ t : Str, t ≠ [] → ('/') ∉ t →
      (entries.map Prod.fst).Nodup →
      (∀ k ∈ entries.map Prod.fst, backslashChar ∉ k ∧ ∃ r, k = t ++ '/' :: r) →
      normalize_zip_entries entries =
          entries.map (fun e => (e.1.drop (t.length + 1), e.2))
        ∧ normalize_zip_entries_router entries =
          entries.map (fun e => (e.1.drop (t.length + 1), e.2)))
    ∧ (∀ k ∈ entries.map Prod.fst, k ≠ [] → backslashChar ∉ k → ('/') ∉ k →
        normalize_zip_entries entries = entries)
    ∧ (∀ k1 k2, k1 ∈ entries.map Prod.fst → k2 ∈ entries.map Prod.fst →
        k1 ≠ [] → k2 ≠ [] → backslashChar ∉ k1 → backslashChar ∉ k2 →
        firstSeg k1 ≠ firstSeg k2 →
        normalize_zip_entries entries = entries) := by
  refine ⟨?_, ?_, ?_⟩
  · intro t ht hslash hnd hall
    exact ⟨normalize_strip entries t ht hslash hnd hall,
      normalize_router_strip entries t ht hslash hnd hall⟩
  · intro k hk hne hbs hns
    exact normalize_noop_of_slashless entries k hk hne hbs hns
  · intro k1 k2 hk1 hk2 hne1 hne2 hbs1 hbs2 hdiff
    exact normalize_noop_of_diff_tops entries k1 k2 hk1 hk2 hne1 hne2 hbs1 hbs2 hdiff

/-- Witness for the amended C3 at a concrete wrapped archive. -/
theorem normalize_zip_spec_witness :
    normalize_zip_entries [(("top/a.py").data, (0 : Nat)), (("top/b/c.py").data, 1)] =
        [(("a.py").data, 0), (("b/c.py").data, 1)]
    ∧ normalize_zip_entries [(("x.py").data, (0 : Nat)), (("b/c.py").data, 1)] =
        [(("x.py").data, 0), (("b/c.py").data, 1)] := by
  constructor
  · have h := (normalize_zip_spec
        [(("top/a.py").data, (0 : Nat)), (("top/b/c.py").data, 1)]).1
      ("top".data) (by decide) (by decide) (by decide) ?_
    · exact h.1.trans (by decide)
    · intro k hk
      rcases List.mem_cons.mp hk with h1 | h1
      · exact h1 ▸ ⟨by decide, ("a.py").data, by decide⟩
      · rcases List.mem_cons.mp h1 with h2 | h2
        · exact h2 ▸ ⟨by decide, ("b/c.py").data, by decide⟩
        · simp at h2
  · exact (normalize_zip_spec [(("x.py").data, (0 : Nat)), (("b/c.py").data, 1)]).2.1
      ("x.py".data) (by decide) (by decide) (by decide) (by decide)

/-- Counterexample for C3 as stated: the router implementation changes a
mapping whose entries do not share a top-level folder (the root-level file
is kept, the nested one is stripped), and the `zip_reader` implementation is
not idempotent on a doubly nested single file. -/
theorem normalize_zip_counterexample :
    normalize_zip_entries_router [(("a.py").data, (0 : Nat)), (("b/c.py").data, 1)] =
        [(("a.py").data, 0), (("c.py").data, 1)]
    ∧ normalize_zip_entries [(("a/b/c.py").data, (0 : Nat))] = [(("b/c.py").data, 0)]
    ∧ normalize_zip_entries (normalize_zip_entries [(("a/b/c.py").data, (0 : Nat))]) =
        [(("c.py").data, 0)] := by
  refine ⟨by decide, by decide, by decide⟩

end AiSdlc
